import Mathlib

/-
Verification of the Bel/Site/Module integration model from
`xc7/fasm2bels/verilog_modeling.py`.

The Python code is shallowly embedded: Python dicts become insertion-ordered
association lists, Python sets become duplicate-free lists, raised exceptions
(assert / KeyError / TypeError / ValueError / RuntimeError / AttributeError)
become `Except.error`, and Python object identity (`id(...)`) is modelled by a
`uid : Nat` field carried by every `Bel`.  The external collaborators
(the connection database behind `get_wire_pkey`, and the router behind
`make_routes`) are passed in as parameters or modelled as plain data.
-/

namespace Fasm2Bels

/-- Lookup in an association list, modelling Python `d[k]` / `k in d`. -/
def dlookup [DecidableEq α] : List (α × β) → α → Option β
  | [], _ => none
  | (k, v) :: rest, a => if k = a then some v else dlookup rest a

/-- Python dict assignment `d[k] = v`: replace in place if the key is present,
otherwise append (insertion order preserved). -/
def upsert [DecidableEq α] : List (α × β) → α → β → List (α × β)
  | [], a, b => [(a, b)]
  | (k, v) :: rest, a, b => if k = a then (a, b) :: rest else (k, v) :: upsert rest a b

/-- Python `set.add`: no-op when the element is already present. -/
def insertSet [DecidableEq α] (l : List α) (a : α) : List α :=
  if a ∈ l then l else l ++ [a]

/-- Python `set.discard` semantics on a list-as-set (drop every occurrence). -/
def removeAll [DecidableEq α] (l : List α) (a : α) : List α :=
  l.filter (fun x => x ≠ a)

/-- Python `set.remove`: raises `KeyError` when the element is absent. -/
def pySetRemove [DecidableEq α] (l : List α) (a : α) (msg : String) :
    Except String (List α) :=
  if a ∈ l then .ok (removeAll l a) else .error msg

/-- Turn an optional value into `Except`, modelling a raising Python lookup. -/
def getEx (o : Option α) (msg : String) : Except String α :=
  match o with
  | some a => .ok a
  | none => .error msg

/-- Python `assert cond`: raises `AssertionError` when the condition fails. -/
def pyAssert (b : Bool) (msg : String) : Except String Unit :=
  if b then .ok () else .error msg

/-- Insert into a list sorted by the boolean order `le`. -/
def insertLe (le : α → α → Bool) (a : α) : List α → List α
  | [] => [a]
  | b :: rest => if le a b then a :: b :: rest else b :: insertLe le a rest

/-- Insertion sort by the boolean order `le`, modelling Python `sorted`. -/
def sortLe (le : α → α → Bool) (l : List α) : List α :=
  l.foldr (insertLe le) []

/-- Python `str.split(c)` on a character list: split at EVERY occurrence of
`c` (empty segments preserved, as in Python). -/
def splitChar (c : Char) : List Char → List (List Char)
  | [] => [[]]
  | x :: rest =>
    if x = c then [] :: splitChar c rest
    else
      match splitChar c rest with
      | [] => [[x]]
      | g :: gs => (x :: g) :: gs

/-- Python `s.split(c)` for a one-character separator (structurally
recursive, unlike `String.splitOn`, so concrete instances evaluate). -/
def pySplit (s : String) (c : Char) : List String :=
  (splitChar c s.toList).map List.asString

/-- Digit accumulator for `pyToInt?`. -/
def parseNatAux : List Char → Nat → Option Nat
  | [], acc => some acc
  | c :: cs, acc =>
    if 48 ≤ c.toNat ∧ c.toNat ≤ 57 then parseNatAux cs (acc * 10 + (c.toNat - 48))
    else none

/-- Python `int(s)` for plain decimal literals with an optional sign
(underscore/whitespace forms are not needed by any call site): `none` models
the raised ValueError. -/
def pyToInt? (s : String) : Option Int :=
  match s.toList with
  | [] => none
  | '-' :: cs =>
    if cs = [] then none else (parseNatAux cs 0).map (fun n => -(n : Int))
  | '+' :: cs =>
    if cs = [] then none else (parseNatAux cs 0).map (fun n => (n : Int))
  | cs => (parseNatAux cs 0).map (fun n => (n : Int))

/-- Python `sep.join(l)` (structurally recursive). -/
def pyJoin (sep : String) : List String → String
  | [] => ""
  | [x] => x
  | x :: rest => x ++ sep ++ pyJoin sep rest

/-- Code-point lexicographic order on character lists, as Python compares
strings. -/
def lexLe : List Char → List Char → Bool
  | [], _ => true
  | _ :: _, [] => false
  | a :: as, b :: bs =>
    if a.toNat < b.toNat then true
    else if a.toNat = b.toNat then lexLe as bs
    else false

/-- Python string `<=`. -/
def strLe (a b : String) : Bool := lexLe a.toList b.toList

/-- Python `max` over a list of ints (call sites guarantee nonemptiness). -/
def listMax : List Int → Int
  | [] => 0
  | x :: xs => xs.foldl max x

/-- Python `min` over a list of ints (call sites guarantee nonemptiness). -/
def listMin : List Int → Int
  | [] => 0
  | x :: xs => xs.foldl min x

/-- A Bel connection target: a site wire name, the constant 0 or 1, or
Python `None` (a cleared connection). -/
inductive ConnValue
  | wire (w : String)
  | const (b : Bool)
  | null
deriving DecidableEq, Repr

/-- The `Bel` class: one instanced primitive.  `uid` models Python object
identity (`id(bel)`), which the source uses for ownership and removal checks.
`pfx` is the Python attribute `prefix` set by `Site.integrate_site`. -/
structure Bel where
  uid : Nat
  module : String
  name : String
  connections : List (String × ConnValue) := []
  unused_connections : List String := []
  parameters : List (String × String) := []
  outputs : List String := []
  pfx : Option String := none
  site : Option String := none
  keep : Bool := true
  bel : Option String := none
deriving DecidableEq, Repr

/-- Bel._prefix_things: apply the prefix (if any) to the input string. -/
def Bel.apply_pfx (b : Bel) (s : String) : String :=
  match b.pfx with
  | some p => p ++ "_" ++ s
  | none => s

/-- Bel.get_cell: the cell name of this BEL. -/
def Bel.get_cell (b : Bel) : String :=
  b.apply_pfx b.name

/-- Bel.set_prefix (called during Site.integrate_site). -/
def Bel.set_pfx (b : Bel) (p : String) : Bel :=
  { b with pfx := some p }

/-- Bel.set_site (called during Site.integrate_site). -/
def Bel.set_site (b : Bel) (s : String) : Bel :=
  { b with site := some s }

/-- One site pin of a site-type object: pin name and its tile wire. -/
structure SitePin where
  name : String
  wire : String
deriving DecidableEq, Repr

/-- The site object stored in `Site.site` (the database side), carrying the
site name and its site pins. -/
structure SiteType where
  name : String
  site_pins : List SitePin
deriving DecidableEq, Repr

/-- One FASM feature handed to `Site.__init__`: its dotted name and value. -/
structure Feature where
  feature : String
  value : Nat
deriving DecidableEq, Repr

/-- A routed net exported by the router collaborator.  Modelled from the spec:
the `Net` class lives in the `make_routes` module, which is not under `src/`;
only `is_net_alive()` (here the `alive` flag) and the path representation
consumed by `make_fixed_route` (here `fixed_route`, already rendered to the
route words) are visible to `Module.output_nets`. -/
structure Net where
  alive : Bool
  fixed_route : List String
deriving DecidableEq, Repr

/-- The `Site` class state.  `sinks`, `sources`, `outputs`, `internal_sources`
are Python dicts (insertion-ordered association lists here); `bels` is the
owned-Bel list; `site_wire_to_wire_pkey` is filled by `integrate_site`. -/
structure Site where
  bels : List Bel := []
  sinks : List (String × List (Bel × String)) := []
  sources : List (String × Option (Bel × String)) := []
  outputs : List (String × String) := []
  internal_sources : List (String × Option (Bel × String)) := []
  set_features : List String := []
  tile : String
  site : SiteType
  site_wire_to_wire_pkey : List (String × Nat) := []
deriving DecidableEq, Repr

/-- The `Module` class state.  The database handles (`db`, `grid`, `conn`) are
external and passed separately where needed; `nets` is `none` before
`make_routes` runs (the Python attribute does not exist yet), and holds the
router-produced net dict afterwards. -/
structure Module where
  name : String := "top"
  iostandard : Option String := none
  source_bels : List (Nat × Bel × String) := []
  shorted_nets : List (Nat × Nat) := []
  wire_pkey_to_wire : List (Nat × String) := []
  unrouted_sinks : List Nat := []
  unrouted_sources : List Nat := []
  active_pips : List (Nat × Nat) := []
  root_in : List String := []
  root_out : List String := []
  root_inout : List String := []
  wires : List String := []
  wire_assigns : List (String × String) := []
  site_to_signal : List (String × String) := []
  sites : List Site := []
  nets : Option (List (Nat × Net)) := none
deriving DecidableEq, Repr

/-- Module.is_top_level: true if the wire is a top level wire. -/
def Module.is_top_level (m : Module) (wire : String) : Bool :=
  m.root_in.contains wire || m.root_out.contains wire || m.root_inout.contains wire

/-- The feature loop of Site.__init__: zero-valued features are skipped
outright (before any prefix check); every other feature must agree with the
first feature's first two dotted components, and contributes the dot-joined
remainder to the suffix set. -/
def featLoop (aparts : List String) : List Feature → List String →
    Except String (List String)
  | [], acc => .ok acc
  | f :: rest, acc =>
    if f.value = 0 then featLoop aparts rest acc
    else
      let parts := pySplit f.feature '.'
      if parts.headI = aparts.headI then
        if (parts.get? 1).isNone ∨ (aparts.get? 1).isNone then
          .error "IndexError: list index out of range"
        else if parts.get? 1 = aparts.get? 1 then
          featLoop aparts rest (insertSet acc (pyJoin "." (parts.drop 2)))
        else .error "assert parts[1] == aparts[1]"
      else .error "assert parts[0] == aparts[0]"

/-- Site.__init__: `features[0]` on an empty batch raises IndexError; the
tile defaults to the first feature's first dotted component. -/
def mkSite (features : List Feature) (site : SiteType) (tile : Option String) :
    Except String Site := do
  let f0 ← getEx features.head? "IndexError: features[0]"
  let aparts := pySplit f0.feature '.'
  let set_features ← featLoop aparts features []
  let t :=
    match tile with
    | none => aparts.headI
    | some t => t
  pure { bels := [], sinks := [], sources := [], outputs := [], internal_sources := [],
         set_features := set_features, tile := t, site := site,
         site_wire_to_wire_pkey := [] }

/-- The Python ids of the owned bels (check_site's `bel_ids`). -/
def Site.bel_ids (s : Site) : List Nat := s.bels.map Bel.uid

/-- Site.check_site: asserts that `internal_sources` keys are disjoint from
`sinks` keys and from `sources` keys (the `sinks` and `sources` key sets are
NOT compared with each other), and that every (Bel, pin) stored in `sources`,
`sinks` and `internal_sources` refers to an owned bel (by Python id). -/
def check_site (s : Site) : Except String Unit := do
  let internal_keys := s.internal_sources.map Prod.fst
  let sink_keys := s.sinks.map Prod.fst
  let source_keys := s.sources.map Prod.fst
  let _ ← pyAssert ((internal_keys.inter sink_keys).length = 0)
    "assert len(internal_sources & sinks) == 0"
  let _ ← pyAssert ((internal_keys.inter source_keys).length = 0)
    "assert len(internal_sources & sources) == 0"
  let _ ← pyAssert (s.sources.all fun p =>
      match p.2 with
      | some q => s.bel_ids.contains q.1.uid
      | none => true)
    "assert id(bel) in bel_ids -- sources"
  let _ ← pyAssert (s.sinks.all fun p => p.2.all fun q => s.bel_ids.contains q.1.uid)
    "assert id(bel) in bel_ids -- sinks"
  let _ ← pyAssert (s.internal_sources.all fun p =>
      match p.2 with
      | some q => s.bel_ids.contains q.1.uid
      | none => true)
    "assert id(bel) in bel_ids -- internal_sources"
  pure ()

/-- make_site_pin_map: map of site pin names to tile wire names. -/
def make_site_pin_map (site_pins : List SitePin) : List (String × String) :=
  site_pins.foldl (fun m p => upsert m p.name p.wire) []

/-- The guard `wire is module.is_top_level(wire)` in Site.integrate_site:
Python `is` compares object identity, and a `str` object is never the `True`
or `False` singleton, so the test is False for every wire and every boolean
and the `continue` branch is dead. -/
def pyIs_str_bool (_wire : String) (_b : Bool) : Bool := false

/-- The connection sanity predicate of Site.integrate_site: a target must be
the constant 0/1, a declared sink/source/internal-source wire, or a module
top-level wire (Python `None` fails every membership test). -/
def connCheck (s : Site) (m : Module) : ConnValue → Bool
  | .const _ => true
  | .wire w =>
      (s.sinks.map Prod.fst).contains w ||
      (s.sources.map Prod.fst).contains w ||
      (s.internal_sources.map Prod.fst).contains w ||
      m.is_top_level w
  | .null => false

/-- The bel-connection sanity loop of Site.integrate_site. -/
def connectionsOk (s : Site) (m : Module) (bels : List Bel) : Except String Unit :=
  pyAssert (bels.all fun b => b.connections.all fun p => connCheck s m p.2)
    "assert wire in sinks or sources or internal_sources or is_top_level"

/-- Accumulator threaded through the sink and source loops of
Site.integrate_site. -/
structure IntState where
  wires : List String
  unrouted_sinks : List Nat
  unrouted_sources : List Nat
  wire_pkey_to_wire : List (Nat × String)
  source_bels : List (Nat × Bel × String)
  site_wire_to_wire_pkey : List (String × Nat)
deriving DecidableEq, Repr

/-- One iteration of the sinks loop of Site.integrate_site: the dead top-level
guard, then prefix-wire bookkeeping, wire-identity resolution through the
site-pin map and the connection database, and the unrouted-sink registration. -/
def sinkStep (conn : String → String → Nat) (tile pfx : String)
    (spm : List (String × String)) (m : Module) (st : IntState) (wire : String) :
    Except String IntState :=
  if pyIs_str_bool wire (m.is_top_level wire) then .ok st
  else
    match dlookup spm wire with
    | none => .error "KeyError: site_pin_map[wire]"
    | some tw =>
      let prefix_wire := pfx ++ "_" ++ wire
      let wire_pkey := conn tile tw
      .ok { st with
        wires := insertSet st.wires prefix_wire,
        wire_pkey_to_wire := upsert st.wire_pkey_to_wire wire_pkey prefix_wire,
        site_wire_to_wire_pkey := upsert st.site_wire_to_wire_pkey wire wire_pkey,
        unrouted_sinks := insertSet st.unrouted_sinks wire_pkey }

/-- The sinks loop of Site.integrate_site. -/
def sinkFold (conn : String → String → Nat) (tile pfx : String)
    (spm : List (String × String)) (m : Module) :
    IntState → List String → Except String IntState
  | st, [] => .ok st
  | st, w :: ws =>
    match sinkStep conn tile pfx spm m st w with
    | .ok st' => sinkFold conn tile pfx spm m st' ws
    | .error e => .error e

/-- One iteration of the sources loop of Site.integrate_site: like `sinkStep`
on the unrouted-source side, plus the source_bels registration when the
source entry carries a driving (Bel, pin). -/
def sourceStep (conn : String → String → Nat) (tile pfx : String)
    (spm : List (String × String)) (m : Module) (st : IntState)
    (p : String × Option (Bel × String)) : Except String IntState :=
  let (wire, source_bel) := p
  if pyIs_str_bool wire (m.is_top_level wire) then .ok st
  else
    match dlookup spm wire with
    | none => .error "KeyError: site_pin_map[wire]"
    | some tw =>
      let prefix_wire := pfx ++ "_" ++ wire
      let wire_pkey := conn tile tw
      let st := { st with
        wires := insertSet st.wires prefix_wire,
        wire_pkey_to_wire := upsert st.wire_pkey_to_wire wire_pkey prefix_wire,
        site_wire_to_wire_pkey := upsert st.site_wire_to_wire_pkey wire wire_pkey,
        unrouted_sources := insertSet st.unrouted_sources wire_pkey }
      match source_bel with
      | some sb => .ok { st with source_bels := upsert st.source_bels wire_pkey sb }
      | none => .ok st

/-- The sources loop of Site.integrate_site. -/
def sourceFold (conn : String → String → Nat) (tile pfx : String)
    (spm : List (String × String)) (m : Module) :
    IntState → List (String × Option (Bel × String)) → Except String IntState
  | st, [] => .ok st
  | st, p :: ps =>
    match sourceStep conn tile pfx spm m st p with
    | .ok st' => sourceFold conn tile pfx spm m st' ps
    | .error e => .error e

/-- Accumulator threaded through the outputs loop of Site.integrate_site. -/
structure OutState where
  wires : List String
  wire_assigns : List (String × String)
  unrouted_sinks : List Nat
  unrouted_sources : List Nat
  shorted_nets : List (Nat × Nat)
deriving DecidableEq, Repr

/-- One iteration of the outputs loop of Site.integrate_site: emit the local
alias assignment; when the mirrored wire is a registered site pin whose
identity is currently an unrouted sink, record a shorted net and remove both
identities from the unrouted pools (`unrouted_sources.remove` raises KeyError
when the source identity is not pooled; the sink removal is guarded by the
membership test). -/
def outputStep (conn : String → String → Nat) (tile pfx : String)
    (spm : List (String × String)) (st : OutState) (p : String × String) :
    Except String OutState :=
  let (source_wire, sink_wire) := p
  let wire_source := pfx ++ "_" ++ sink_wire
  let wire := pfx ++ "_" ++ source_wire
  let st := { st with
    wires := insertSet st.wires wire,
    wire_assigns := upsert st.wire_assigns wire wire_source }
  match dlookup spm sink_wire with
  | none => .ok st
  | some sink_tw =>
    let sink_wire_pkey := conn tile sink_tw
    match dlookup spm source_wire with
    | none => .error "KeyError: site_pin_map[source_wire]"
    | some source_tw =>
      let source_wire_pkey := conn tile source_tw
      if sink_wire_pkey ∈ st.unrouted_sinks then
        match pySetRemove st.unrouted_sources source_wire_pkey
            "KeyError: unrouted_sources.remove" with
        | .error e => .error e
        | .ok us =>
          .ok { st with
            shorted_nets := upsert st.shorted_nets source_wire_pkey sink_wire_pkey,
            unrouted_sources := us,
            unrouted_sinks := removeAll st.unrouted_sinks sink_wire_pkey }
      else .ok st

/-- The outputs loop of Site.integrate_site. -/
def outputsFold (conn : String → String → Nat) (tile pfx : String)
    (spm : List (String × String)) :
    OutState → List (String × String) → Except String OutState
  | st, [] => .ok st
  | st, p :: ps =>
    match outputStep conn tile pfx spm st p with
    | .ok st' => outputsFold conn tile pfx spm st' ps
    | .error e => .error e

/-- The dict returned by Site.integrate_site. -/
structure IntegratedSite where
  wires : List String
  unrouted_sinks : List Nat
  unrouted_sources : List Nat
  wire_pkey_to_wire : List (Nat × String)
  source_bels : List (Nat × Bel × String)
  wire_assigns : List (String × String)
  shorted_nets : List (Nat × Nat)
deriving DecidableEq, Repr

/-- Site.integrate_site.  `conn` is the external connection database:
`get_wire_pkey(conn, tile, tile_wire)` is modelled as `conn tile tile_wire`
(per spec §6 injective per (tile, wire name) and total over referenced site
pins).  Returns the mutated site (prefixed bels, filled
site_wire_to_wire_pkey) together with the returned dict. -/
def integrate_site (conn : String → String → Nat) (s : Site) (m : Module) :
    Except String (Site × IntegratedSite) := do
  let _ ← check_site s
  let pfx := s.tile ++ "_" ++ s.site.name
  let spm := make_site_pin_map s.site.site_pins
  let bels := s.bels.map (fun b => (b.set_pfx pfx).set_site s.site.name)
  let _ ← connectionsOk s m bels
  let wires0 := (s.internal_sources.map Prod.fst).foldl
    (fun acc w => insertSet acc (pfx ++ "_" ++ w)) []
  let st0 : IntState :=
    { wires := wires0, unrouted_sinks := [], unrouted_sources := [],
      wire_pkey_to_wire := [], source_bels := [],
      site_wire_to_wire_pkey := s.site_wire_to_wire_pkey }
  let st1 ← sinkFold conn s.tile pfx spm m st0 (s.sinks.map Prod.fst)
  let st2 ← sourceFold conn s.tile pfx spm m st1 s.sources
  let ost0 : OutState :=
    { wires := st2.wires, wire_assigns := [],
      unrouted_sinks := st2.unrouted_sinks,
      unrouted_sources := st2.unrouted_sources, shorted_nets := [] }
  let ost ← outputsFold conn s.tile pfx spm ost0 s.outputs
  pure ({ s with bels := bels, site_wire_to_wire_pkey := st2.site_wire_to_wire_pkey },
    { wires := ost.wires, unrouted_sinks := ost.unrouted_sinks,
      unrouted_sources := ost.unrouted_sources,
      wire_pkey_to_wire := st2.wire_pkey_to_wire,
      source_bels := st2.source_bels, wire_assigns := ost.wire_assigns,
      shorted_nets := ost.shorted_nets })

/-- merge_exclusive_sets: set_b into set_a after asserting disjointness. -/
def merge_exclusive_sets [DecidableEq α] (set_a set_b : List α) :
    Except String (List α) :=
  if (set_a.inter set_b).length = 0 then .ok (set_a ++ set_b)
  else .error "assert len(set_a & set_b) == 0"

/-- merge_exclusive_dicts: dict_b into dict_a after asserting the key sets are
disjoint (with disjoint keys, `dict.update` is a plain append). -/
def merge_exclusive_dicts [DecidableEq α] (dict_a dict_b : List (α × β)) :
    Except String (List (α × β)) :=
  if ((dict_a.map Prod.fst).inter (dict_b.map Prod.fst)).length = 0 then
    .ok (dict_a ++ dict_b)
  else .error "assert len(dict_a.keys() & dict_b.keys()) == 0"

/-- Module.add_site: run the site's integration, then merge every returned
collection into the corresponding global collection with
assert-disjoint-then-union, and append the site. -/
def add_site (conn : String → String → Nat) (m : Module) (site : Site) :
    Except String Module := do
  let (site', r) ← integrate_site conn site m
  let wires ← merge_exclusive_sets m.wires r.wires
  let unrouted_sinks ← merge_exclusive_sets m.unrouted_sinks r.unrouted_sinks
  let unrouted_sources ← merge_exclusive_sets m.unrouted_sources r.unrouted_sources
  let wire_pkey_to_wire ← merge_exclusive_dicts m.wire_pkey_to_wire r.wire_pkey_to_wire
  let source_bels ← merge_exclusive_dicts m.source_bels r.source_bels
  let wire_assigns ← merge_exclusive_dicts m.wire_assigns r.wire_assigns
  let shorted_nets ← merge_exclusive_dicts m.shorted_nets r.shorted_nets
  pure { m with
    wires := wires
    unrouted_sinks := unrouted_sinks
    unrouted_sources := unrouted_sources
    wire_pkey_to_wire := wire_pkey_to_wire
    source_bels := source_bels
    wire_assigns := wire_assigns
    shorted_nets := shorted_nets
    sites := m.sites ++ [site'] }

/-- Module.set_iostandard: intersect all candidate lists (as sets) starting
from the first; exactly one surviving value is required, and the IOSTANDARD
is recorded only after that check passes. -/
def set_iostandard (m : Module) (iostandards : List (List String)) :
    Except String Module := do
  let first ← getEx iostandards.head? "IndexError: iostandards[0]"
  let possible := iostandards.foldl
    (fun acc l => acc.filter (fun x => decide (x ∈ l))) first.dedup
  match possible with
  | [x] => pure { m with iostandard := some x }
  | _ => .error "RuntimeError: Ambigous IOSTANDARD, must specify possibilities"

/-- First index in `bels` whose Python id matches (Site.remove_bel). -/
def findBelIdx (bels : List Bel) (uid : Nat) : Option Nat :=
  bels.findIdx? (fun b => decide (b.uid = uid))

/-- Delete the first consumer entry whose bel has the given Python id
(Site.remove_bel's per-sink deletion: only the first match is removed). -/
def delFirstByUid (uid : Nat) : List (Bel × String) → List (Bel × String)
  | [] => []
  | (b, p) :: rest =>
    if b.uid = uid then rest else (b, p) :: delFirstByUid uid rest

/-- The sinks loop of Site.remove_bel: drop the bel's entry from each
consumer list; every sink whose list ends up empty (including lists that were
already empty) reports its wire identity, raising KeyError when the identity
was never recorded. -/
def removeBelSinks (swp : List (String × Nat)) (uid : Nat) :
    List (String × List (Bel × String)) →
    Except String (List (String × List (Bel × String)) × List Nat)
  | [] => .ok ([], [])
  | (sink_wire, lst) :: rest =>
    let lst' := delFirstByUid uid lst
    if lst'.length = 0 then
      match dlookup swp sink_wire with
      | none => .error "KeyError: site_wire_to_wire_pkey[sink_wire]"
      | some k =>
        match removeBelSinks swp uid rest with
        | .error e => .error e
        | .ok (rest', removed) => .ok ((sink_wire, lst') :: rest', k :: removed)
    else
      match removeBelSinks swp uid rest with
      | .error e => .error e
      | .ok (rest', removed) => .ok ((sink_wire, lst') :: rest', removed)

/-- The sources loop of Site.remove_bel: delete every source the bel drives
and report its wire identity (a `None` source entry fails Python tuple
unpacking; a missing identity raises KeyError). -/
def removeBelSources (swp : List (String × Nat)) (uid : Nat) :
    List (String × Option (Bel × String)) →
    Except String (List (String × Option (Bel × String)) × List Nat)
  | [] => .ok ([], [])
  | (source_wire, v) :: rest =>
    match v with
    | none => .error "TypeError: cannot unpack None"
    | some q =>
      if q.1.uid = uid then
        match dlookup swp source_wire with
        | none => .error "KeyError: site_wire_to_wire_pkey[source_wire]"
        | some k =>
          match removeBelSources swp uid rest with
          | .error e => .error e
          | .ok (rest', removed) => .ok (rest', k :: removed)
      else
        match removeBelSources swp uid rest with
        | .error e => .error e
        | .ok (rest', removed) => .ok ((source_wire, some q) :: rest', removed)

/-- Site.remove_bel: asserts the bel is owned; asserts that no OTHER owned
bel has a connection whose value lies in `bel_to_remove.outputs` — note this
is the removed bel's *output pin-name set*, not the set of site wires those
output pins drive; then removes the bel and runs the sink and source loops.
internal_sources is left untouched. -/
def remove_bel (s : Site) (bel_to_remove : Bel) :
    Except String (Site × List Nat × List Nat) := do
  let bel_idx ← getEx (findBelIdx s.bels bel_to_remove.uid) "assert bel_idx is not None"
  let _ ← pyAssert (s.bels.all fun b =>
      if b.uid = bel_to_remove.uid then true
      else b.connections.all fun p =>
        match p.2 with
        | .wire w => !(bel_to_remove.outputs.contains w)
        | _ => true)
    "assert site_wire not in bel_to_remove.outputs"
  let bels := s.bels.eraseIdx bel_idx
  let rs ← removeBelSinks s.site_wire_to_wire_pkey bel_to_remove.uid s.sinks
  let rsrc ← removeBelSources s.site_wire_to_wire_pkey bel_to_remove.uid s.sources
  pure ({ s with bels := bels, sinks := rs.1, sources := rsrc.1 }, rs.2, rsrc.2)

/-- The first loop of make_bus applied to one wire: unindexed wires map to
None; an indexed wire is split at the FIRST '[' (Python str.find), must end
in ']', and the bracket content is parsed as a Python int literal. -/
def busCollectStep (acc : List (String × Option Int) × List (String × List Int))
    (w : String) :
    Except String (List (String × Option Int) × List (String × List Int)) :=
  let cs := w.toList
  if cs.contains '[' then
    if cs.getLast? = some ']' then
      let i := cs.indexOf '['
      let bus := (cs.take i).asString
      let digits := ((cs.drop (i + 1)).dropLast).asString
      match pyToInt? digits with
      | some n =>
        match dlookup acc.2 bus with
        | some vs => .ok (acc.1, upsert acc.2 bus (vs ++ [n]))
        | none => .ok (acc.1, acc.2 ++ [(bus, [n])])
      | none => .error "ValueError: invalid literal for int()"
    else .error "assert w[-1] == ']'"
  else .ok (upsert acc.1 w none, acc.2)

/-- The first loop of make_bus over the whole wire collection. -/
def busCollect :
    List String → (List (String × Option Int) × List (String × List Int)) →
    Except String (List (String × Option Int) × List (String × List Int))
  | [], acc => .ok acc
  | w :: ws, acc =>
    match busCollectStep acc w with
    | .ok acc' => busCollect ws acc'
    | .error e => .error e

/-- The second loop of make_bus: each bus's index list must have minimum 0,
maximum len-1 and no duplicates; the declared bound recorded for the family
is the maximum index (overwriting any same-named unindexed entry). -/
def busFinish (output : List (String × Option Int)) :
    List (String × List Int) → Except String (List (String × Option Int))
  | [] => .ok output
  | (bus, values) :: rest => do
    let _ ← pyAssert (listMin values = 0) "assert min(values) == 0"
    let _ ← pyAssert (listMax values = (values.length : Int) - 1)
      "assert max(values) == len(values) - 1"
    let _ ← pyAssert (values.length = values.dedup.length)
      "assert len(values) == len(set(values))"
    busFinish (upsert output bus (some (listMax values))) rest

/-- make_bus: combine bus wires into a consecutive bus, yielding (name,
bound) pairs for `sorted(output)`.  Keys are unique, so sorting the
association pairs by key equals iterating the sorted keys. -/
def make_bus (wires : List String) : Except String (List (String × Option Int)) := do
  let r ← busCollect wires ([], [])
  let output ← busFinish r.1 r.2
  pure (sortLe (fun a b => strLe a.1 b.1) output)

/-- The rendered connection target in Bel.output_verilog: top-level wires
stay unprefixed, constants render as 0/1, `None` stays None, anything else
gets the bel's prefix. -/
def renderConnWire (top : Module) (b : Bel) : ConnValue → Option String
  | .wire w => if top.is_top_level w then some w else some (b.apply_pfx w)
  | .const bb => some (if bb then "1" else "0")
  | .null => none

/-- Python string interpolation of an optional rendered connection
(None prints as "None"). -/
def optStr : Option String → String
  | some s => s
  | none => "None"

/-- Accumulator of the first loop of Bel.output_verilog.  The source keeps
two dicts `buses` and `bus_is_output` updated on exactly the same keys; they
are combined here into one dict from bus name to (output flag, index dict). -/
structure BusAcc where
  conns : List (String × String)
  buses : List (String × Bool × List (Int × Option String))
deriving DecidableEq, Repr

/-- One iteration of the first loop of Bel.output_verilog: a pin without '['
contributes a plain connection line; an indexed pin must have exactly one '['
(Python 2-tuple unpacking of str.split), end in ']', and joins its bus group,
whose output flag is fixed by the group's first pin — a later pin with the
opposite flag fails the assertion (the malformed-bus error). -/
def ovCollectStep (top : Module) (b : Bel) (ind : String) (acc : BusAcc)
    (p : String × ConnValue) : Except String BusAcc :=
  let (wire, connection) := p
  let connection_wire := renderConnWire top b connection
  match pySplit wire '[' with
  | [_] =>
    let line := ind ++ ind ++ "." ++ wire ++ "(" ++ optStr connection_wire ++ ")"
    .ok { acc with conns := upsert acc.conns wire line }
  | [bus_name, address] =>
    if address.toList.getLast? = some ']' then
      let wire_is_output := b.outputs.contains wire
      match dlookup acc.buses bus_name with
      | none =>
        match pyToInt? (address.toList.dropLast.asString) with
        | some idx =>
          let buses' := acc.buses ++ [(bus_name, wire_is_output, [(idx, connection_wire)])]
          .ok { acc with buses := buses' }
        | none => .error "ValueError: invalid literal for int()"
      | some fe =>
        if fe.1 = wire_is_output then
          match pyToInt? (address.toList.dropLast.asString) with
          | some idx =>
            let buses' := upsert acc.buses bus_name (fe.1, upsert fe.2 idx connection_wire)
            .ok { acc with buses := buses' }
          | none => .error "ValueError: invalid literal for int()"
        else .error "assert bus_is_output[bus_name] == wire_is_output"
    else .error "assert address[-1] == ']'"
  | _ => .error "ValueError: too many values to unpack"

/-- The first loop of Bel.output_verilog over all pin connections. -/
def ovCollect (top : Module) (b : Bel) (ind : String) :
    List (String × ConnValue) → BusAcc → Except String BusAcc
  | [], acc => .ok acc
  | p :: ps, acc =>
    match ovCollectStep top b ind acc p with
    | .ok acc' => ovCollect top b ind ps acc'
    | .error e => .error e

/-- The bus-rendering loop of Bel.output_verilog: per bus, add the
`.bus(bus_wire)` connection entry, emit one wire declaration whose bound is
the maximum index, then one bit-select assignment per present entry, with the
direction chosen by the group's output flag. -/
def ovRenderBuses (b : Bel) (ind : String) :
    List (String × Bool × List (Int × Option String)) →
    List (String × String) → List (String × String) × List String
  | [], conns => (conns, [])
  | (bus_name, fe) :: rest, conns =>
    let bus_wire := b.apply_pfx bus_name
    let conns := upsert conns bus_name
      (ind ++ ind ++ "." ++ bus_name ++ "(" ++ bus_wire ++ ")")
    let decl := ind ++ "wire [" ++ toString (listMax (fe.2.map Prod.fst)) ++
      ":0] " ++ bus_wire ++ ";"
    let assigns := fe.2.filterMap fun q =>
      match q.2 with
      | none => none
      | some wire =>
        if fe.1 then
          some (ind ++ "assign " ++ wire ++ " = " ++ bus_wire ++ "[" ++
            toString q.1 ++ "];")
        else
          some (ind ++ "assign " ++ bus_wire ++ "[" ++ toString q.1 ++ "] = " ++
            wire ++ ";")
    let r := ovRenderBuses b ind rest conns
    (r.1, decl :: assigns ++ r.2)

/-- Bel.output_verilog: the Verilog lines for this BEL.  Each Python yield is
one list element (multi-line joins stay single elements). -/
def Bel.output_verilog (b : Bel) (top : Module) (ind : String) :
    Except String (List String) := do
  let acc ← ovCollect top b ind b.connections ⟨[], []⟩
  let rb := ovRenderBuses b ind acc.buses acc.conns
  let conns := b.unused_connections.foldl
    (fun c u => upsert c u (ind ++ ind ++ "." ++ u ++ "()")) rb.1
  let locLines :=
    match b.site with
    | none => []
    | some site =>
      let comment := (if b.keep then ["KEEP", "DONT_TOUCH"] else []) ++
        ["LOC = \"" ++ site ++ "\""] ++
        (match b.bel with
         | some bb => if bb = "" then [] else ["BEL = \"" ++ bb ++ "\""]
         | none => [])
      [ind ++ "(* " ++ pyJoin ", " comment ++ " *)"]
  let params := (sortLe (fun x y => strLe x.1 y.1) b.parameters).map
    (fun q => ind ++ ind ++ "." ++ q.1 ++ "(" ++ q.2 ++ ")")
  let paramLines := if params.isEmpty then ([] : List String)
    else [pyJoin ",\n" params]
  let sortedConns := sortLe (fun x y => strLe x.1 y.1) conns
  let connLines := if sortedConns.isEmpty then ([] : List String)
    else [pyJoin ",\n" (sortedConns.map Prod.snd)]
  pure ([""] ++ rb.2 ++ [""] ++ locLines ++
    [ind ++ b.module ++ " #("] ++ paramLines ++
    [ind ++ ") " ++ b.get_cell ++ " ("] ++ connLines ++ [ind ++ ");"])

/-- Sentinel net key for the constant-zero rail.  Modelled from the spec: the
real ZERO_NET lives in the make_routes module (not under src/); only its
distinctness from ONE_NET matters here. -/
def ZERO_NET : Nat := 0

/-- Sentinel net key for the constant-one rail (see ZERO_NET). -/
def ONE_NET : Nat := 1

/-- The lines Module.output_nets yields for one (net key, net) pair: constant
rails yield a fixed sentinel get_nets line; every other net is skipped when
its key has no source_bels entry or its net is not alive, and otherwise
yields the pin-lookup block; every non-skipped net then yields its
FIXED_ROUTE line. -/
def netLines (m : Module) (p : Nat × Net) : List String :=
  let routeLine := "\nset_property FIXED_ROUTE " ++
    pyJoin " " p.2.fixed_route ++ " $net\n"
  if p.1 = ZERO_NET then
    ["set net [get_nets \x7b<const0>\x7d]", routeLine]
  else if p.1 = ONE_NET then
    ["set net [get_nets \x7b<const1>\x7d]", routeLine]
  else
    match dlookup m.source_bels p.1 with
    | none => []
    | some bp =>
      if p.2.alive then
        ["\nset pin [get_pins " ++ bp.1.get_cell ++ "/" ++ bp.2 ++
          "]\nif \x7b $pin == \x7b\x7d \x7d \x7b\n    error \"Failed to find pin!\"\n\x7d\nset net [get_nets -of_object $pin]\nif \x7b $net == \x7b\x7d \x7d \x7b\n    error \"Failed to find net!\"\n\x7d\n",
          routeLine]
      else []

/-- Module.output_nets: before make_routes the nets attribute does not exist
(AttributeError); an empty nets dict fails the opening assert; afterwards
each realized net contributes its netLines. -/
def output_nets (m : Module) : Except String (List String) := do
  let nets ← getEx m.nets "AttributeError: Module object has no attribute nets"
  let _ ← pyAssert (nets.length > 0) "assert len(self.nets) > 0"
  pure ((nets.map (netLines m)).flatten)

/-- Whether one feature of a batch passes the prefix checks of Site.__init__
against the first feature's dotted components: the first components agree and
both features have a second component and they agree. -/
def featOk (aparts : List String) (f : Feature) : Prop :=
  (pySplit f.feature '.').headI = aparts.headI ∧
  ((pySplit f.feature '.').get? 1).isSome ∧
  (pySplit f.feature '.').get? 1 = aparts.get? 1

instance (aparts : List String) (f : Feature) : Decidable (featOk aparts f) := by
  unfold featOk
  infer_instance

/-- The feature-suffix contributed to set_features: the dot-joined remainder
after the first two components. -/
def featSuffix (f : Feature) : String :=
  pyJoin "." ((pySplit f.feature '.').drop 2)

/-- The Bel of the C4 counterexample site. -/
def c4Bel : Bel :=
  { uid := 0, module := "LUT1", name := "LUT1",
    connections := [("I", .wire "W"), ("O", .wire "W")], outputs := ["O"] }

/-- A site whose wire "W" is registered both as a sink and as a source. -/
def c4Site : Site :=
  { bels := [c4Bel],
    sinks := [("W", [(c4Bel, "I")])],
    sources := [("W", some (c4Bel, "O"))],
    tile := "T", site := ⟨"S", []⟩ }

/-- A collision between a Module's global collections and a Site's
integration result: some wire name or identity is already present in the
corresponding global collection (the condition Module.add_site's
assert-disjoint merges reject). -/
def merge_collision (m : Module) (r : IntegratedSite) : Prop :=
  (∃ x, x ∈ m.wires ∧ x ∈ r.wires) ∨
  (∃ x, x ∈ m.unrouted_sinks ∧ x ∈ r.unrouted_sinks) ∨
  (∃ x, x ∈ m.unrouted_sources ∧ x ∈ r.unrouted_sources) ∨
  (∃ x, x ∈ m.wire_pkey_to_wire.map Prod.fst ∧ x ∈ r.wire_pkey_to_wire.map Prod.fst) ∨
  (∃ x, x ∈ m.source_bels.map Prod.fst ∧ x ∈ r.source_bels.map Prod.fst) ∨
  (∃ x, x ∈ m.wire_assigns.map Prod.fst ∧ x ∈ r.wire_assigns.map Prod.fst) ∨
  (∃ x, x ∈ m.shorted_nets.map Prod.fst ∧ x ∈ r.shorted_nets.map Prod.fst)

/-- The bus-pin parse performed by Bel.output_verilog on one pin name:
exactly one '[', ending in ']', with an integer index between them.  Mirrors
the parse path of `ovCollectStep`. -/
def busPinParse (wire : String) : Option (String × Int) :=
  match pySplit wire '[' with
  | [bus_name, address] =>
    if address.toList.getLast? = some ']' then
      match pyToInt? (address.toList.dropLast.asString) with
      | some idx => some (bus_name, idx)
      | none => none
    else none
  | _ => none

/-- The C7 witness Bel: two bus pins ADDR[0]/ADDR[1] (inputs), one plain pin
and one disconnected bus pin, prefixed and placed. -/
def c7Bel : Bel :=
  { uid := 0, module := "RAMB18", name := "R",
    connections := [("ADDR[0]", .wire "A0"), ("ADDR[1]", .wire "A1"),
      ("EN", .wire "E"), ("UNK[0]", .null)],
    outputs := [], pfx := some "P", site := some "SLICE_X0Y0" }

/-- The C1 witness input, Bel 1: consumes site pin "I". -/
def c1Bel1 : Bel :=
  { uid := 10, module := "FDRE", name := "B1", connections := [("D", .wire "I")] }

/-- The C1 witness input, Bel 2: drives site pin "O". -/
def c1Bel2 : Bel :=
  { uid := 11, module := "LUT1", name := "B2", connections := [("Q", .wire "O")],
    outputs := ["Q"] }

/-- The C1 witness site: sink "I", source "O", and the output pair
("O", "I") mirroring the sink, with both wires registered site pins. -/
def c1Site : Site :=
  { bels := [c1Bel1, c1Bel2],
    sinks := [("I", [(c1Bel1, "D")])],
    sources := [("O", some (c1Bel2, "Q"))],
    outputs := [("O", "I")],
    tile := "T", site := ⟨"S", [⟨"I", "TI"⟩, ⟨"O", "TO"⟩]⟩ }

/-- The C1 witness connection database: identity 5 for tile wire "TI",
identity 6 for every other wire (so 6 for "TO"). -/
def c1Conn : String → String → Nat := fun _ w => if w = "TI" then 5 else 6

/-- The site state integrate_site returns for the C1 witness. -/
def c1SiteAfter : Site :=
  { c1Site with
    bels := [{ c1Bel1 with pfx := some "T_S", site := some "S" },
             { c1Bel2 with pfx := some "T_S", site := some "S" }],
    site_wire_to_wire_pkey := [("I", 5), ("O", 6)] }

/-- The integration result for the C1 witness: the pair is classified as a
shorted net 6 -> 5 and both pools are emptied. -/
def c1Integrated : IntegratedSite :=
  { wires := ["T_S_I", "T_S_O"], unrouted_sinks := [], unrouted_sources := [],
    wire_pkey_to_wire := [(5, "T_S_I"), (6, "T_S_O")],
    source_bels := [(6, c1Bel2, "Q")],
    wire_assigns := [("T_S_O", "T_S_I")], shorted_nets := [(6, 5)] }

/-- The C3 failing input, Bel A: drives the site-internal wire "X" from its
output pin "O" (as add_internal_source(A, "O", "X") builds it). -/
def c3BelA : Bel :=
  { uid := 0, module := "LUT1", name := "A",
    connections := [("O", .wire "X")], outputs := ["O"] }

/-- The C3 failing input, Bel B: consumes the internal wire "X" through its
input pin "I" (as connect_internal(B, "I", "X") builds it). -/
def c3BelB : Bel :=
  { uid := 1, module := "FDRE", name := "B", connections := [("I", .wire "X")] }

/-- The C3 failing input site: A's output pin "O" drives internal wire "X",
which Bel B still consumes. -/
def c3Site : Site :=
  { bels := [c3BelA, c3BelB],
    internal_sources := [("X", some (c3BelA, "O"))],
    tile := "T", site := ⟨"S", []⟩ }

/-- What remove_bel leaves behind on the C3 failing input: B is kept, but the
internal source "X" still names the removed Bel A. -/
def c3SiteAfter : Site :=
  { bels := [c3BelB],
    internal_sources := [("X", some (c3BelA, "O"))],
    tile := "T", site := ⟨"S", []⟩ }

/-- The C5 counterexample feature batch: the second feature has a mismatched
tile/site prefix but zero value. -/
def c5Features : List Feature := [⟨"T.S.A", 1⟩, ⟨"U.V.B", 0⟩]

/-- The site Site.__init__ produces for `c5Features` without raising. -/
def c5ExpectedSite : Site :=
  { bels := [], sinks := [], sources := [], outputs := [], internal_sources := [],
    set_features := ["A"], tile := "T", site := ⟨"S", []⟩,
    site_wire_to_wire_pkey := [] }

section HelperLemmas

variable {α : Type _} {β : Type _} [DecidableEq α]

theorem mem_insertSet {l : List α} {a b : α} :
    b ∈ insertSet l a ↔ b ∈ l ∨ b = a := by
  unfold insertSet
  split
  · rename_i h
    constructor
    · exact Or.inl
    · rintro (hb | rfl)
      · exact hb
      · exact h
  · simp [List.mem_append]

theorem mem_removeAll {l : List α} {a b : α} :
    b ∈ removeAll l a ↔ b ∈ l ∧ b ≠ a := by
  simp [removeAll]

theorem pySetRemove_ok {l : List α} {a : α} {msg : String} {l' : List α} :
    pySetRemove l a msg = .ok l' ↔ a ∈ l ∧ l' = removeAll l a := by
  unfold pySetRemove
  split
  · rename_i h
    constructor
    · intro he
      exact ⟨h, (Except.ok.injEq _ _).mp he |>.symm⟩
    · rintro ⟨-, rfl⟩
      rfl
  · rename_i h
    constructor
    · intro he
      cases he
    · rintro ⟨ha, -⟩
      exact absurd ha h

theorem dlookup_upsert_self {l : List (α × β)} {k : α} {v : β} :
    dlookup (upsert l k v) k = some v := by
  induction l with
  | nil => simp [upsert, dlookup]
  | cons p rest ih =>
    by_cases h : p.1 = k
    · simp [upsert, h, dlookup]
    · simp [upsert, h, dlookup, ih]

theorem dlookup_upsert_ne {l : List (α × β)} {k k' : α} {v : β} (h : k ≠ k') :
    dlookup (upsert l k v) k' = dlookup l k' := by
  induction l with
  | nil => simp [upsert, dlookup, h]
  | cons p rest ih =>
    by_cases hp : p.1 = k
    · subst hp
      simp [upsert, dlookup, h]
    · simp [upsert, hp, dlookup, ih]

theorem mem_upsert {l : List (α × β)} {k : α} {v : β} {q : α × β} :
    q ∈ upsert l k v → q = (k, v) ∨ q ∈ l := by
  induction l with
  | nil => simp [upsert]
  | cons p rest ih =>
    by_cases hp : p.1 = k
    · simp only [upsert, hp, if_true, List.mem_cons]
      rintro (rfl | hq)
      · exact Or.inl rfl
      · exact Or.inr (Or.inr hq)
    · simp only [upsert, hp, if_false, List.mem_cons]
      rintro (rfl | hq)
      · exact Or.inr (Or.inl rfl)
      · rcases ih hq with h | h
        · exact Or.inl h
        · exact Or.inr (Or.inr h)

theorem keys_upsert {l : List (α × β)} {k : α} {v : β} :
    (upsert l k v).map Prod.fst =
      if k ∈ l.map Prod.fst then l.map Prod.fst else l.map Prod.fst ++ [k] := by
  induction l with
  | nil => simp [upsert]
  | cons p rest ih =>
    by_cases hp : p.1 = k
    · simp [upsert, hp]
    · have hne : ¬ k = p.1 := fun h => hp h.symm
      simp only [upsert, hp, if_false, List.map_cons, List.mem_cons]
      rw [ih]
      by_cases hk : k ∈ rest.map Prod.fst
      · simp [hk, hne]
      · simp [hk, hne]

theorem dlookup_eq_none_iff {l : List (α × β)} {k : α} :
    dlookup l k = none ↔ k ∉ l.map Prod.fst := by
  induction l with
  | nil => simp [dlookup]
  | cons p rest ih =>
    by_cases hp : p.1 = k
    · simp [dlookup, hp]
    · have hne : ¬ k = p.1 := fun h => hp h.symm
      simp [dlookup, hp, ih, hne]

theorem dlookup_isSome_iff {l : List (α × β)} {k : α} :
    (dlookup l k).isSome ↔ k ∈ l.map Prod.fst := by
  rcases h : dlookup l k with _ | v
  · simpa [h] using (dlookup_eq_none_iff.mp h)
  · simp only [h, Option.isSome_some, true_iff]
    by_contra hk
    rw [← dlookup_eq_none_iff] at hk
    rw [h] at hk
    cases hk

theorem dlookup_mem {l : List (α × β)} {k : α} {v : β}
    (h : dlookup l k = some v) : (k, v) ∈ l := by
  induction l with
  | nil => cases h
  | cons p rest ih =>
    by_cases hp : p.1 = k
    · rw [dlookup, if_pos hp] at h
      cases h
      exact List.mem_cons.mpr (Or.inl (by rw [← hp]))
    · rw [dlookup, if_neg hp] at h
      exact List.mem_cons_of_mem _ (ih h)

theorem mem_dlookup {l : List (α × β)} {k : α} {v : β}
    (hnd : (l.map Prod.fst).Nodup) (h : (k, v) ∈ l) : dlookup l k = some v := by
  induction l with
  | nil => cases h
  | cons p rest ih =>
    rcases List.mem_cons.mp h with rfl | hmem
    · simp [dlookup]
    · have hp : p.1 ≠ k := by
        intro hk
        have : k ∈ rest.map Prod.fst := List.mem_map.mpr ⟨(k, v), hmem, rfl⟩
        rw [List.map_cons, List.nodup_cons, hk] at hnd
        exact hnd.1 this
      rw [dlookup, if_neg hp]
      exact ih (by rw [List.map_cons, List.nodup_cons] at hnd; exact hnd.2) hmem

theorem inter_length_zero_iff {l₁ l₂ : List α} :
    (l₁.inter l₂).length = 0 ↔ ∀ x ∈ l₁, x ∉ l₂ := by
  rw [List.length_eq_zero]
  constructor
  · intro h x hx hx2
    have : x ∈ l₁.inter l₂ := List.mem_inter_of_mem_of_mem hx hx2
    rw [h] at this
    cases this
  · intro h
    by_contra hne
    rcases List.exists_mem_of_ne_nil _ hne with ⟨x, hx⟩
    exact h x (List.mem_of_mem_inter_left hx) (List.mem_of_mem_inter_right hx)

theorem mem_insertLe {le : α → α → Bool} {a b : α} {l : List α} :
    b ∈ insertLe le a l ↔ b = a ∨ b ∈ l := by
  induction l with
  | nil => simp [insertLe]
  | cons c rest ih =>
    unfold insertLe
    split
    · simp
    · simp only [List.mem_cons, ih]
      tauto

theorem mem_sortLe {le : α → α → Bool} {a : α} {l : List α} :
    a ∈ sortLe le l ↔ a ∈ l := by
  induction l with
  | nil => simp [sortLe]
  | cons c rest ih =>
    simp only [sortLe, List.foldr_cons, mem_insertLe, List.mem_cons]
    rw [sortLe] at ih
    rw [ih]

theorem sorted_insertLe {le : α → α → Bool}
    (htot : ∀ a b, le a b = true ∨ le b a = true)
    (htrans : ∀ a b c, le a b = true → le b c = true → le a c = true)
    {a : α} {l : List α} (hs : l.Pairwise (fun x y => le x y = true)) :
    (insertLe le a l).Pairwise (fun x y => le x y = true) := by
  induction l with
  | nil => simp [insertLe]
  | cons c rest ih =>
    rw [List.pairwise_cons] at hs
    unfold insertLe
    split
    · rename_i hle
      rw [List.pairwise_cons]
      refine ⟨?_, List.pairwise_cons.mpr hs⟩
      intro x hx
      rcases List.mem_cons.mp hx with rfl | hx'
      · exact hle
      · exact htrans a c x hle (hs.1 x hx')
    · rename_i hle
      rw [List.pairwise_cons]
      refine ⟨?_, ih hs.2⟩
      intro x hx
      rcases mem_insertLe.mp hx with rfl | hx'
      · rcases htot c x with h | h
        · exact h
        · rw [h] at hle
          cases hle rfl
      · exact hs.1 x hx'

theorem sorted_sortLe {le : α → α → Bool}
    (htot : ∀ a b, le a b = true ∨ le b a = true)
    (htrans : ∀ a b c, le a b = true → le b c = true → le a c = true)
    (l : List α) : (sortLe le l).Pairwise (fun x y => le x y = true) := by
  induction l with
  | nil => simp [sortLe]
  | cons c rest ih =>
    exact sorted_insertLe htot htrans ih

end HelperLemmas

theorem all_sources_owned_iff {s : Site} {l : List (String × Option (Bel × String))} :
    (l.all fun p =>
      match p.2 with
      | some q => s.bel_ids.contains q.1.uid
      | none => true) = true ↔
    ∀ p ∈ l, ∀ q, p.2 = some q → q.1.uid ∈ s.bel_ids := by
  rw [List.all_eq_true]
  constructor
  · intro h p hp q hq
    have := h p hp
    rw [hq] at this
    simpa using this
  · intro h p hp
    rcases hv : p.2 with _ | q
    · simp [hv]
    · simpa [hv] using h p hp q hv

theorem all_sinks_owned_iff {s : Site} {l : List (String × List (Bel × String))} :
    (l.all fun p => p.2.all fun q => s.bel_ids.contains q.1.uid) = true ↔
    ∀ p ∈ l, ∀ q ∈ p.2, q.1.uid ∈ s.bel_ids := by
  rw [List.all_eq_true]
  constructor
  · intro h p hp q hq
    have := (List.all_eq_true.mp (h p hp)) q hq
    simpa using this
  · intro h p hp
    rw [List.all_eq_true]
    intro q hq
    simpa using h p hp q hq

/-- C4 (corrected).  Site.check_site returns without raising exactly when the
`internal_sources` key set is disjoint from the `sinks` key set AND from the
`sources` key set, and every (Bel, pin) stored in `sources`, `sinks` and
`internal_sources` refers to a currently-owned Bel.  The `sinks` and
`sources` key sets themselves are never compared, so full pairwise
disjointness is NOT established (see the counterexample). -/
theorem C4_check_site_checked_invariants (s : Site) :
    check_site s = .ok () ↔
      ((∀ w ∈ s.internal_sources.map Prod.fst, w ∉ s.sinks.map Prod.fst) ∧
       (∀ w ∈ s.internal_sources.map Prod.fst, w ∉ s.sources.map Prod.fst) ∧
       (∀ p ∈ s.sources, ∀ q, p.2 = some q → q.1.uid ∈ s.bel_ids) ∧
       (∀ p ∈ s.sinks, ∀ q ∈ p.2, q.1.uid ∈ s.bel_ids) ∧
       (∀ p ∈ s.internal_sources, ∀ q, p.2 = some q → q.1.uid ∈ s.bel_ids)) := by
  unfold check_site
  simp only [bind, Except.bind, pyAssert, decide_eq_true_eq, inter_length_zero_iff,
    all_sources_owned_iff, all_sinks_owned_iff]
  split_ifs with h1 h2 h3 h4 h5
  · exact iff_of_true rfl ⟨h1, h2, h3, h4, h5⟩
  · exact iff_of_false id (fun hc => h5 hc.2.2.2.2)
  · exact iff_of_false id (fun hc => h4 hc.2.2.2.1)
  · exact iff_of_false id (fun hc => h3 hc.2.2.1)
  · exact iff_of_false id (fun hc => h2 hc.2.1)
  · exact iff_of_false id (fun hc => h1 hc.1)

theorem featLoop_ok {aparts : List String} :
    ∀ (fs : List Feature) (acc : List String),
      (∀ f ∈ fs, f.value ≠ 0 → featOk aparts f) →
      ∃ out, featLoop aparts fs acc = .ok out ∧
        ∀ x, x ∈ out ↔ x ∈ acc ∨ ∃ f, f ∈ fs ∧ f.value ≠ 0 ∧ featSuffix f = x
  | [], acc, _ => ⟨acc, rfl, by simp⟩
  | f :: rest, acc, h => by
    by_cases hv : f.value = 0
    · rcases featLoop_ok rest acc (fun g hg => h g (List.mem_cons_of_mem _ hg)) with
        ⟨out, hout, hiff⟩
      refine ⟨out, by rw [featLoop, if_pos hv]; exact hout, ?_⟩
      intro x
      rw [hiff]
      constructor
      · rintro (hx | ⟨g, hg, hgv, hgs⟩)
        · exact Or.inl hx
        · exact Or.inr ⟨g, List.mem_cons_of_mem _ hg, hgv, hgs⟩
      · rintro (hx | ⟨g, hg, hgv, hgs⟩)
        · exact Or.inl hx
        · rcases List.mem_cons.mp hg with rfl | hg'
          · exact absurd hv hgv
          · exact Or.inr ⟨g, hg', hgv, hgs⟩
    · rcases h f (List.mem_cons_self _ _) hv with ⟨h0, h1some, h1eq⟩
      rcases hp1 : (pySplit f.feature '.').get? 1 with _ | p1
      · rw [hp1] at h1some
        cases h1some
      · have ha1 : aparts.get? 1 = some p1 := by rw [← h1eq, hp1]
        rcases featLoop_ok rest (insertSet acc (featSuffix f))
            (fun g hg => h g (List.mem_cons_of_mem _ hg)) with ⟨out, hout, hiff⟩
        refine ⟨out, ?_, ?_⟩
        · rw [featLoop, if_neg hv, if_pos h0, if_neg (by rw [hp1, ha1]; simp), if_pos h1eq]
          exact hout
        · intro x
          rw [hiff]
          constructor
          · rintro (hx | ⟨g, hg, hgv, hgs⟩)
            · rcases mem_insertSet.mp hx with hx' | rfl
              · exact Or.inl hx'
              · exact Or.inr ⟨f, List.mem_cons_self _ _, hv, rfl⟩
            · exact Or.inr ⟨g, List.mem_cons_of_mem _ hg, hgv, hgs⟩
          · rintro (hx | ⟨g, hg, hgv, hgs⟩)
            · exact Or.inl (mem_insertSet.mpr (Or.inl hx))
            · rcases List.mem_cons.mp hg with rfl | hg'
              · exact Or.inl (mem_insertSet.mpr (Or.inr hgs.symm))
              · exact Or.inr ⟨g, hg', hgv, hgs⟩

theorem featLoop_ok_forall {aparts : List String} :
    ∀ (fs : List Feature) (acc out : List String),
      featLoop aparts fs acc = .ok out →
      ∀ f ∈ fs, f.value ≠ 0 → featOk aparts f
  | [], _, _, _ => by
    intro f hf
    cases hf
  | f :: rest, acc, out, h => by
    intro g hg hgv
    rw [featLoop] at h
    by_cases hv : f.value = 0
    · rw [if_pos hv] at h
      rcases List.mem_cons.mp hg with rfl | hg'
      · exact absurd hv hgv
      · exact featLoop_ok_forall rest acc out h g hg' hgv
    · rw [if_neg hv] at h
      by_cases h0 : (pySplit f.feature '.').headI = aparts.headI
      · rw [if_pos h0] at h
        by_cases hnone : ((pySplit f.feature '.').get? 1).isNone ∨ (aparts.get? 1).isNone
        · rw [if_pos hnone] at h
          cases h
        · rw [if_neg hnone] at h
          by_cases heq : (pySplit f.feature '.').get? 1 = aparts.get? 1
          · rw [if_pos heq] at h
            rcases List.mem_cons.mp hg with rfl | hg'
            · refine ⟨h0, Option.isSome_iff_ne_none.mpr (fun hn => ?_), heq⟩
              exact hnone (Or.inl (by rw [hn]; rfl))
            · exact featLoop_ok_forall rest _ out h g hg' hgv
          · rw [if_neg heq] at h
            cases h
      · rw [if_neg h0] at h
        cases h

theorem featLoop_error {aparts : List String} {fs : List Feature}
    {acc : List String}
    (h : ∃ f, f ∈ fs ∧ f.value ≠ 0 ∧ ¬ featOk aparts f) :
    ∃ e, featLoop aparts fs acc = .error e := by
  rcases hr : featLoop aparts fs acc with e | out
  · exact ⟨e, rfl⟩
  · rcases h with ⟨f, hf, hfv, hbad⟩
    exact absurd (featLoop_ok_forall fs acc out hr f hf hfv) hbad

/-- C5 (corrected).  Site construction drops zero-valued features entirely:
they are excluded from the suffix set AND exempt from the tile/site prefix
check; a NONZERO-valued feature with a mismatched prefix is fatal.  (The
claim's "any feature in the batch whose prefix differs causes a fatal error"
fails for zero-valued features — see the counterexample.) -/
theorem C5_feature_filtering (features : List Feature) (st : SiteType)
    (tile : Option String) (f0 : Feature) (h0 : features.head? = some f0) :
    ((∀ f ∈ features, f.value ≠ 0 → featOk (pySplit f0.feature '.') f) →
      ∃ s, mkSite features st tile = .ok s ∧
        ∀ x, x ∈ s.set_features ↔ ∃ f, f ∈ features ∧ f.value ≠ 0 ∧ featSuffix f = x) ∧
    ((∃ f, f ∈ features ∧ f.value ≠ 0 ∧ ¬ featOk (pySplit f0.feature '.') f) →
      ∃ e, mkSite features st tile = .error e) := by
  constructor
  · intro hall
    rcases featLoop_ok features [] hall with ⟨out, hout, hiff⟩
    refine ⟨⟨[], [], [], [], [], out,
      (match tile with
       | none => (pySplit f0.feature '.').headI
       | some t => t), st, []⟩, ?_, ?_⟩
    · rw [mkSite]
      simp only [bind, Except.bind, getEx, h0, hout, pure, Except.pure]
    · intro x
      have hx := hiff x
      simp only [List.not_mem_nil, false_or] at hx
      exact hx
  · intro hbad
    rcases @featLoop_error (pySplit f0.feature '.') features [] hbad with ⟨e, he⟩
    refine ⟨e, ?_⟩
    rw [mkSite]
    simp only [bind, Except.bind, getEx, h0, he]

/-- C5 witness: a single-feature batch integrates and its suffix set is
exactly that feature's suffix. -/
theorem C5_feature_filtering_witness :
    List.head? [({ feature := "T.S.A", value := 1 } : Feature)] =
      some { feature := "T.S.A", value := 1 } ∧
    ∃ s, mkSite [{ feature := "T.S.A", value := 1 }] ⟨"S", []⟩ none = .ok s ∧
      ∀ x, x ∈ s.set_features ↔
        ∃ f, f ∈ [({ feature := "T.S.A", value := 1 } : Feature)] ∧
          f.value ≠ 0 ∧ featSuffix f = x :=
  ⟨rfl,
    (C5_feature_filtering [{ feature := "T.S.A", value := 1 }] ⟨"S", []⟩ none
      { feature := "T.S.A", value := 1 } rfl).1 (by decide)⟩

/-- C5 counterexample: the batch `c5Features` contains a feature whose
tile/site prefix differs from the first feature's, yet Site construction
returns successfully (because that feature has value 0), refuting "a
mismatched tile/site prefix anywhere in the batch is fatal". -/
theorem C5_counterexample :
    mkSite c5Features ⟨"S", []⟩ none = .ok c5ExpectedSite ∧
      ({ feature := "U.V.B", value := 0 } : Feature) ∈ c5Features ∧
      ¬ featOk (pySplit "T.S.A" '.') { feature := "U.V.B", value := 0 } :=
  ⟨rfl, by decide, by decide⟩

theorem foldl_filter_mem {α : Type _} [DecidableEq α] {ls : List (List α)}
    {acc : List α} {x : α} :
    x ∈ ls.foldl (fun acc l => acc.filter (fun y => decide (y ∈ l))) acc ↔
      x ∈ acc ∧ ∀ l ∈ ls, x ∈ l := by
  induction ls generalizing acc with
  | nil => simp
  | cons l rest ih =>
    rw [List.foldl_cons, ih]
    simp only [List.mem_filter, decide_eq_true_eq, List.forall_mem_cons]
    tauto

theorem foldl_filter_nodup {α : Type _} [DecidableEq α] {ls : List (List α)}
    {acc : List α} (h : acc.Nodup) :
    (ls.foldl (fun acc l => acc.filter (fun y => decide (y ∈ l))) acc).Nodup := by
  induction ls generalizing acc with
  | nil => exact h
  | cons l rest ih =>
    rw [List.foldl_cons]
    exact ih (h.filter _)

/-- C8 (confirmed).  Module.set_iostandard records exactly the unique common
element of all candidate lists (leaving every other Module field unchanged),
and raises when the intersection is empty or has several elements; the raise
happens before the IOSTANDARD assignment, so the recorded value is untouched
on failure (in this embedding the failing call returns no module at all). -/
theorem C8_set_iostandard (m : Module) (iostandards : List (List String))
    (hne : iostandards ≠ []) :
    (∃ v, (∀ l ∈ iostandards, v ∈ l) ∧
        (∀ y, (∀ l ∈ iostandards, y ∈ l) → y = v) ∧
        set_iostandard m iostandards = .ok { m with iostandard := some v }) ∨
    ((¬ ∃ v, (∀ l ∈ iostandards, v ∈ l) ∧ ∀ y, (∀ l ∈ iostandards, y ∈ l) → y = v) ∧
        ∃ e, set_iostandard m iostandards = .error e) := by
  rcases iostandards with _ | ⟨first, rest⟩
  · exact absurd rfl hne
  have hmem : ∀ x, x ∈ ((first :: rest).foldl
      (fun acc l => acc.filter (fun y => decide (y ∈ l))) first.dedup) ↔
      ∀ l ∈ first :: rest, x ∈ l := by
    intro x
    rw [foldl_filter_mem]
    constructor
    · rintro ⟨-, h⟩
      exact h
    · intro h
      exact ⟨List.mem_dedup.mpr (h first (List.mem_cons_self _ _)), h⟩
  have hnd : ((first :: rest).foldl
      (fun acc l => acc.filter (fun y => decide (y ∈ l))) first.dedup).Nodup :=
    foldl_filter_nodup (List.nodup_dedup first)
  have hrun : set_iostandard m (first :: rest) =
      (match (first :: rest).foldl
          (fun acc l => acc.filter (fun y => decide (y ∈ l))) first.dedup with
       | [x] => .ok { m with iostandard := some x }
       | _ => .error "RuntimeError: Ambigous IOSTANDARD, must specify possibilities") := by
    rw [set_iostandard]
    rfl
  rcases hp : (first :: rest).foldl
      (fun acc l => acc.filter (fun y => decide (y ∈ l))) first.dedup with _ | ⟨x, tail⟩
  · right
    constructor
    · rintro ⟨v, hv, -⟩
      have : v ∈ ([] : List String) := by
        rw [← hp, hmem]
        exact hv
      cases this
    · exact ⟨_, by rw [hrun, hp]⟩
  · rcases tail with _ | ⟨y, tail2⟩
    · left
      refine ⟨x, ?_, ?_, ?_⟩
      · rw [← hmem, hp]
        exact List.mem_cons_self _ _
      · intro y hy
        have : y ∈ [x] := by
          rw [← hp, hmem]
          exact hy
        simpa using this
      · rw [hrun, hp]
    · right
      constructor
      · rintro ⟨v, -, huniq⟩
        have hx : ∀ l ∈ first :: rest, x ∈ l := by
          rw [← hmem, hp]
          exact List.mem_cons_self _ _
        have hy : ∀ l ∈ first :: rest, y ∈ l := by
          rw [← hmem, hp]
          exact List.mem_cons_of_mem _ (List.mem_cons_self _ _)
        have hxy : x ≠ y := by
          rw [hp] at hnd
          intro hxyeq
          exact (List.nodup_cons.mp hnd).1 (hxyeq ▸ List.mem_cons_self _ _)
        exact hxy ((huniq x hx).trans (huniq y hy).symm)
      · exact ⟨_, by rw [hrun, hp]⟩

/-- C8 witness: a concrete two-port candidate list with the unique common
IOSTANDARD "A" is recorded, leaving the rest of the module unchanged. -/
theorem C8_set_iostandard_witness :
    (∃ v, (∀ l ∈ [["A", "B"], ["A"]], v ∈ l) ∧
        (∀ y, (∀ l ∈ [["A", "B"], ["A"]], y ∈ l) → y = v) ∧
        set_iostandard {} [["A", "B"], ["A"]] =
          .ok { ({} : Module) with iostandard := some v }) ∨
    ((¬ ∃ v, (∀ l ∈ [["A", "B"], ["A"]], v ∈ l) ∧
        ∀ y, (∀ l ∈ [["A", "B"], ["A"]], y ∈ l) → y = v) ∧
        ∃ e, set_iostandard {} [["A", "B"], ["A"]] = .error e) :=
  C8_set_iostandard {} [["A", "B"], ["A"]] (by decide)

/-- C3 (code_bug).  Site.remove_bel's in-use check compares each other Bel's
connection wire names against the removed Bel's *output pin-name* set
(`site_wire not in bel_to_remove.outputs`), not against the wires those
output pins drive.  On this input Bel B consumes wire "X", which Bel A
drives from its output pin "O"; the claim (and the function's own docstring,
"It is an error to remove a BEL if any of its outputs are currently in use
by the Site") requires a raise, but remove_bel succeeds, returns no removed
identities, and leaves internal_sources dangling on the removed Bel A. -/
theorem C3_remove_bel_missed_consumer :
    remove_bel c3Site c3BelA = .ok (c3SiteAfter, [], []) ∧
    c3BelB ∈ c3Site.bels ∧ c3BelB.uid ≠ c3BelA.uid ∧
    dlookup c3BelB.connections "I" = some (.wire "X") ∧
    dlookup c3BelA.connections "O" = some (.wire "X") ∧
    "O" ∈ c3BelA.outputs :=
  ⟨rfl, by decide, by decide, rfl, rfl, by decide⟩

theorem sinkStep_eq {conn : String → String → Nat} {tile pfx : String}
    {spm : List (String × String)} {m : Module} {st : IntState} {w : String} :
    sinkStep conn tile pfx spm m st w =
      match dlookup spm w with
      | none => .error "KeyError: site_pin_map[wire]"
      | some tw =>
        .ok { st with
          wires := insertSet st.wires (pfx ++ "_" ++ w),
          wire_pkey_to_wire := upsert st.wire_pkey_to_wire (conn tile tw) (pfx ++ "_" ++ w),
          site_wire_to_wire_pkey := upsert st.site_wire_to_wire_pkey w (conn tile tw),
          unrouted_sinks := insertSet st.unrouted_sinks (conn tile tw) } := by
  rw [sinkStep]
  rfl

theorem sourceStep_eq {conn : String → String → Nat} {tile pfx : String}
    {spm : List (String × String)} {m : Module} {st : IntState}
    {p : String × Option (Bel × String)} :
    sourceStep conn tile pfx spm m st p =
      match dlookup spm p.1 with
      | none => .error "KeyError: site_pin_map[wire]"
      | some tw =>
        let st' := { st with
          wires := insertSet st.wires (pfx ++ "_" ++ p.1),
          wire_pkey_to_wire := upsert st.wire_pkey_to_wire (conn tile tw) (pfx ++ "_" ++ p.1),
          site_wire_to_wire_pkey := upsert st.site_wire_to_wire_pkey p.1 (conn tile tw),
          unrouted_sources := insertSet st.unrouted_sources (conn tile tw) }
        match p.2 with
        | some sb => .ok { st' with source_bels := upsert st'.source_bels (conn tile tw) sb }
        | none => .ok st' := by
  rcases p with ⟨w, v⟩
  rw [sourceStep]
  rfl

theorem sinkFold_m_irrelevant {conn : String → String → Nat} {tile pfx : String}
    {spm : List (String × String)} (m m' : Module) :
    ∀ (ws : List String) (st : IntState),
      sinkFold conn tile pfx spm m st ws = sinkFold conn tile pfx spm m' st ws
  | [], _ => rfl
  | w :: ws, st => by
    rw [sinkFold, sinkFold, sinkStep_eq, sinkStep_eq]
    rcases dlookup spm w with _ | tw
    · rfl
    · exact sinkFold_m_irrelevant m m' ws _

theorem sourceFold_m_irrelevant {conn : String → String → Nat} {tile pfx : String}
    {spm : List (String × String)} (m m' : Module) :
    ∀ (ps : List (String × Option (Bel × String))) (st : IntState),
      sourceFold conn tile pfx spm m st ps = sourceFold conn tile pfx spm m' st ps
  | [], _ => rfl
  | p :: ps, st => by
    rw [sourceFold, sourceFold, sourceStep_eq, sourceStep_eq]
    rcases dlookup spm p.1 with _ | tw
    · rfl
    · rcases p.2 with _ | sb
      · exact sourceFold_m_irrelevant m m' ps _
      · exact sourceFold_m_irrelevant m m' ps _

theorem sinkFold_sinks_mem {conn : String → String → Nat} {tile pfx : String}
    {spm : List (String × String)} {m : Module} :
    ∀ (ws : List String) (st st' : IntState),
      sinkFold conn tile pfx spm m st ws = .ok st' →
      ((∀ x, x ∈ st'.unrouted_sinks ↔ x ∈ st.unrouted_sinks ∨
          ∃ w ∈ ws, ∃ tw, dlookup spm w = some tw ∧ conn tile tw = x) ∧
       st'.unrouted_sources = st.unrouted_sources)
  | [], st, st', h => by
    cases h
    simp
  | w :: ws, st, st', h => by
    rw [sinkFold, sinkStep_eq] at h
    rcases hlk : dlookup spm w with _ | tw <;> rw [hlk] at h
    · cases h
    · rcases sinkFold_sinks_mem ws _ st' h with ⟨hmem, hsrc⟩
      refine ⟨?_, hsrc⟩
      intro x
      rw [hmem]
      simp only [mem_insertSet, List.mem_cons]
      constructor
      · rintro ((hx | rfl) | ⟨w', hw', tw', hlk', rfl⟩)
        · exact Or.inl hx
        · exact Or.inr ⟨w, Or.inl rfl, tw, hlk, rfl⟩
        · exact Or.inr ⟨w', Or.inr hw', tw', hlk', rfl⟩
      · rintro (hx | ⟨w', hw', tw', hlk', rfl⟩)
        · exact Or.inl (Or.inl hx)
        · rcases hw' with rfl | hw''
          · rw [hlk] at hlk'
            cases hlk'
            exact Or.inl (Or.inr rfl)
          · exact Or.inr ⟨w', hw'', tw', hlk', rfl⟩

theorem sourceFold_sources_mem {conn : String → String → Nat} {tile pfx : String}
    {spm : List (String × String)} {m : Module} :
    ∀ (ps : List (String × Option (Bel × String))) (st st' : IntState),
      sourceFold conn tile pfx spm m st ps = .ok st' →
      ((∀ x, x ∈ st'.unrouted_sources ↔ x ∈ st.unrouted_sources ∨
          ∃ p ∈ ps, ∃ tw, dlookup spm p.1 = some tw ∧ conn tile tw = x) ∧
       st'.unrouted_sinks = st.unrouted_sinks)
  | [], st, st', h => by
    cases h
    simp
  | p :: ps, st, st', h => by
    rw [sourceFold, sourceStep_eq] at h
    rcases hlk : dlookup spm p.1 with _ | tw <;> rw [hlk] at h
    · cases h
    · have ih : ∀ st₁, sourceFold conn tile pfx spm m st₁ ps = .ok st' →
          st₁.unrouted_sources = insertSet st.unrouted_sources (conn tile tw) →
          st₁.unrouted_sinks = st.unrouted_sinks →
          ((∀ x, x ∈ st'.unrouted_sources ↔ x ∈ st.unrouted_sources ∨
              ∃ q ∈ p :: ps, ∃ tw', dlookup spm q.1 = some tw' ∧ conn tile tw' = x) ∧
           st'.unrouted_sinks = st.unrouted_sinks) := by
        intro st₁ h₁ hsrc hsnk
        rcases sourceFold_sources_mem ps st₁ st' h₁ with ⟨hmem, hsnk'⟩
        refine ⟨?_, by rw [hsnk', hsnk]⟩
        intro x
        rw [hmem, hsrc]
        simp only [mem_insertSet, List.mem_cons]
        constructor
        · rintro ((hx | rfl) | ⟨q, hq, tw', hlk', rfl⟩)
          · exact Or.inl hx
          · exact Or.inr ⟨p, Or.inl rfl, tw, hlk, rfl⟩
          · exact Or.inr ⟨q, Or.inr hq, tw', hlk', rfl⟩
        · rintro (hx | ⟨q, hq, tw', hlk', rfl⟩)
          · exact Or.inl (Or.inl hx)
          · rcases hq with rfl | hq'
            · rw [hlk] at hlk'
              cases hlk'
              exact Or.inl (Or.inr rfl)
            · exact Or.inr ⟨q, hq', tw', hlk', rfl⟩
      rcases hv : p.2 with _ | sb <;> rw [hv] at h
      · exact ih _ h rfl rfl
      · exact ih _ h rfl rfl

theorem sinkFold_ok_lookup {conn : String → String → Nat} {tile pfx : String}
    {spm : List (String × String)} {m : Module} :
    ∀ (ws : List String) (st st' : IntState),
      sinkFold conn tile pfx spm m st ws = .ok st' →
      ∀ w ∈ ws, ∃ tw, dlookup spm w = some tw
  | [], _, _, _ => by
    intro w hw
    cases hw
  | w :: ws, st, st', h => by
    intro w' hw'
    rw [sinkFold, sinkStep_eq] at h
    rcases hlk : dlookup spm w with _ | tw <;> rw [hlk] at h
    · cases h
    · rcases List.mem_cons.mp hw' with rfl | hw''
      · exact ⟨tw, hlk⟩
      · exact sinkFold_ok_lookup ws _ st' h w' hw''

theorem sourceFold_ok_lookup {conn : String → String → Nat} {tile pfx : String}
    {spm : List (String × String)} {m : Module} :
    ∀ (ps : List (String × Option (Bel × String))) (st st' : IntState),
      sourceFold conn tile pfx spm m st ps = .ok st' →
      ∀ p ∈ ps, ∃ tw, dlookup spm p.1 = some tw
  | [], _, _, _ => by
    intro p hp
    cases hp
  | p :: ps, st, st', h => by
    intro p' hp'
    rw [sourceFold, sourceStep_eq] at h
    rcases hlk : dlookup spm p.1 with _ | tw <;> rw [hlk] at h
    · cases h
    · rcases List.mem_cons.mp hp' with rfl | hp''
      · exact ⟨tw, hlk⟩
      · rcases hv : p.2 with _ | sb <;> rw [hv] at h
        · exact sourceFold_ok_lookup ps _ st' h p' hp''
        · exact sourceFold_ok_lookup ps _ st' h p' hp''

/-- C10 (confirmed).  The guard `wire is module.is_top_level(wire)` compares
a string against a boolean for object identity, so it is False for every
input and its skip branch is dead: the sink and source loops of
Site.integrate_site behave identically for every Module (top-level ports
included), and every registered sink/source wire has its identity resolved
through the site-pin map and added to the corresponding unrouted pool. -/
theorem C10_dead_top_level_guard :
    (∀ (w : String) (b : Bool), pyIs_str_bool w b = false) ∧
    (∀ (conn : String → String → Nat) (tile pfx : String)
        (spm : List (String × String)) (m m' : Module) (st : IntState)
        (ws : List String),
      sinkFold conn tile pfx spm m st ws = sinkFold conn tile pfx spm m' st ws) ∧
    (∀ (conn : String → String → Nat) (tile pfx : String)
        (spm : List (String × String)) (m m' : Module) (st : IntState)
        (ps : List (String × Option (Bel × String))),
      sourceFold conn tile pfx spm m st ps = sourceFold conn tile pfx spm m' st ps) ∧
    (∀ (conn : String → String → Nat) (tile pfx : String)
        (spm : List (String × String)) (m : Module) (st st' : IntState)
        (ws : List String),
      sinkFold conn tile pfx spm m st ws = .ok st' →
      ∀ w ∈ ws, ∃ tw, dlookup spm w = some tw ∧ conn tile tw ∈ st'.unrouted_sinks) ∧
    (∀ (conn : String → String → Nat) (tile pfx : String)
        (spm : List (String × String)) (m : Module) (st st' : IntState)
        (ps : List (String × Option (Bel × String))),
      sourceFold conn tile pfx spm m st ps = .ok st' →
      ∀ p ∈ ps, ∃ tw, dlookup spm p.1 = some tw ∧ conn tile tw ∈ st'.unrouted_sources) := by
  refine ⟨fun _ _ => rfl,
    fun conn tile pfx spm m m' st ws => sinkFold_m_irrelevant m m' ws st,
    fun conn tile pfx spm m m' st ps => sourceFold_m_irrelevant m m' ps st,
    ?_, ?_⟩
  · intro conn tile pfx spm m st st' ws h w hw
    rcases sinkFold_ok_lookup ws st st' h w hw with ⟨tw, hlk⟩
    refine ⟨tw, hlk, ?_⟩
    rw [(sinkFold_sinks_mem ws st st' h).1]
    exact Or.inr ⟨w, hw, tw, hlk, rfl⟩
  · intro conn tile pfx spm m st st' ps h p hp
    rcases sourceFold_ok_lookup ps st st' h p hp with ⟨tw, hlk⟩
    refine ⟨tw, hlk, ?_⟩
    rw [(sourceFold_sources_mem ps st st' h).1]
    exact Or.inr ⟨p, hp, tw, hlk, rfl⟩

/-- C10 witness: a sink wire "I" that IS a top-level port of the module is
still resolved and pooled (identity 5) by the sink loop. -/
theorem C10_dead_top_level_guard_witness :
    Module.is_top_level { root_in := ["I"] } "I" = true ∧
    ∃ tw, dlookup [("I", "TI")] "I" = some tw ∧
      (fun _ _ => 5 : String → String → Nat) "T" tw ∈
        (IntState.mk ["T_S_I"] [5] [] [(5, "T_S_I")] [] [("I", 5)]).unrouted_sinks :=
  ⟨rfl,
    C10_dead_top_level_guard.2.2.2.1 (fun _ _ => 5) "T" "T_S" [("I", "TI")]
      { root_in := ["I"] }
      (IntState.mk [] [] [] [] [] [])
      (IntState.mk ["T_S_I"] [5] [] [(5, "T_S_I")] [] [("I", 5)])
      ["I"] rfl "I" (List.mem_cons_self _ _)⟩

theorem not_inter_length_zero {α : Type _} [DecidableEq α] {a b : List α} :
    ¬ ((a.inter b).length = 0) ↔ ∃ x, x ∈ a ∧ x ∈ b := by
  rw [inter_length_zero_iff]
  push_neg
  constructor
  · rintro ⟨x, hx, hx2⟩
    exact ⟨x, hx, hx2⟩
  · rintro ⟨x, hx, hx2⟩
    exact ⟨x, hx, hx2⟩

/-- C2 (confirmed).  Given the site's integration result, Module.add_site
raises exactly when some returned wire name, unrouted-sink identity,
unrouted-source identity, identity-to-name key, source-driver key,
alias-assignment key, or shorted-net key is already present in the
corresponding global collection (no overwrite ever happens: the disjointness
assert precedes every union); and with no collision every global collection
becomes the disjoint union of its previous contents and the returned
collection, with the site appended. -/
theorem C2_add_site_disjoint_union (conn : String → String → Nat) (m : Module)
    (s s' : Site) (r : IntegratedSite)
    (h : integrate_site conn s m = .ok (s', r)) :
    ((∃ e, add_site conn m s = .error e) ↔ merge_collision m r) ∧
    (¬ merge_collision m r →
      add_site conn m s = .ok { m with
        wires := m.wires ++ r.wires,
        unrouted_sinks := m.unrouted_sinks ++ r.unrouted_sinks,
        unrouted_sources := m.unrouted_sources ++ r.unrouted_sources,
        wire_pkey_to_wire := m.wire_pkey_to_wire ++ r.wire_pkey_to_wire,
        source_bels := m.source_bels ++ r.source_bels,
        wire_assigns := m.wire_assigns ++ r.wire_assigns,
        shorted_nets := m.shorted_nets ++ r.shorted_nets,
        sites := m.sites ++ [s'] }) := by
  simp only [add_site, h, merge_exclusive_sets, merge_exclusive_dicts, bind, Except.bind]
  split_ifs with h1 h2 h3 h4 h5 h6 h7
  · constructor
    · constructor
      · rintro ⟨e, he⟩
        cases he
      · intro hc
        unfold merge_collision at hc
        rcases hc with hc | hc | hc | hc | hc | hc | hc
        · exact absurd hc (by rw [← not_inter_length_zero, not_not]; exact h1)
        · exact absurd hc (by rw [← not_inter_length_zero, not_not]; exact h2)
        · exact absurd hc (by rw [← not_inter_length_zero, not_not]; exact h3)
        · exact absurd hc (by rw [← not_inter_length_zero, not_not]; exact h4)
        · exact absurd hc (by rw [← not_inter_length_zero, not_not]; exact h5)
        · exact absurd hc (by rw [← not_inter_length_zero, not_not]; exact h6)
        · exact absurd hc (by rw [← not_inter_length_zero, not_not]; exact h7)
    · intro _
      rfl
  all_goals
    have hcol : merge_collision m r := by
      unfold merge_collision
      first
        | exact Or.inl (not_inter_length_zero.mp (by assumption))
        | exact Or.inr (Or.inl (not_inter_length_zero.mp (by assumption)))
        | exact Or.inr (Or.inr (Or.inl (not_inter_length_zero.mp (by assumption))))
        | exact Or.inr (Or.inr (Or.inr (Or.inl (not_inter_length_zero.mp (by assumption)))))
        | exact Or.inr (Or.inr (Or.inr (Or.inr (Or.inl
            (not_inter_length_zero.mp (by assumption))))))
        | exact Or.inr (Or.inr (Or.inr (Or.inr (Or.inr (Or.inl
            (not_inter_length_zero.mp (by assumption)))))))
        | exact Or.inr (Or.inr (Or.inr (Or.inr (Or.inr (Or.inr
            (not_inter_length_zero.mp (by assumption)))))))
  all_goals
    exact ⟨Iff.intro (fun _ => hcol) (fun _ => ⟨_, rfl⟩), fun hc => absurd hcol hc⟩

/-- C2 witness: integrating a trivial empty site into the empty module has no
collision and yields the (trivial) disjoint unions. -/
theorem C2_add_site_disjoint_union_witness :
    add_site (fun _ _ => 0) {} { tile := "T", site := ⟨"S", []⟩ } =
      .ok { ({} : Module) with
        sites := [{ tile := "T", site := ⟨"S", []⟩ }] } :=
  (C2_add_site_disjoint_union (fun _ _ => 0) {} { tile := "T", site := ⟨"S", []⟩ }
      { tile := "T", site := ⟨"S", []⟩ }
      ⟨[], [], [], [], [], [], []⟩ rfl).2
    (by
      rintro (⟨x, -, hx⟩ | ⟨x, -, hx⟩ | ⟨x, -, hx⟩ | ⟨x, -, hx⟩ | ⟨x, -, hx⟩ |
        ⟨x, -, hx⟩ | ⟨x, -, hx⟩) <;> cases hx)

theorem outputStep_eq {conn : String → String → Nat} {tile pfx : String}
    {spm : List (String × String)} {st : OutState} {src snk : String} :
    outputStep conn tile pfx spm st (src, snk) =
      (let st1 : OutState := { st with
        wires := insertSet st.wires (pfx ++ "_" ++ src),
        wire_assigns := upsert st.wire_assigns (pfx ++ "_" ++ src) (pfx ++ "_" ++ snk) }
      match dlookup spm snk with
      | none => .ok st1
      | some sink_tw =>
        match dlookup spm src with
        | none => .error "KeyError: site_pin_map[source_wire]"
        | some source_tw =>
          if conn tile sink_tw ∈ st.unrouted_sinks then
            if conn tile source_tw ∈ st.unrouted_sources then
              .ok { st1 with
                shorted_nets := upsert st.shorted_nets (conn tile source_tw)
                  (conn tile sink_tw),
                unrouted_sources := removeAll st.unrouted_sources (conn tile source_tw),
                unrouted_sinks := removeAll st.unrouted_sinks (conn tile sink_tw) }
            else .error "KeyError: unrouted_sources.remove"
          else .ok st1) := by
  rw [outputStep]
  simp only [pySetRemove]
  rcases h1 : dlookup spm snk with _ | sink_tw
  · simp only [h1]
  · simp only [h1]
    rcases h2 : dlookup spm src with _ | source_tw
    · simp only [h2]
    · simp only [h2]
      by_cases hsnk : conn tile sink_tw ∈ st.unrouted_sinks
      · simp only [if_pos hsnk]
        by_cases hsrc : conn tile source_tw ∈ st.unrouted_sources
        · simp only [if_pos hsrc]
        · simp only [if_neg hsrc]
      · simp only [if_neg hsnk]

theorem outputsFold_invariant {conn : String → String → Nat} {tile pfx : String}
    {spm : List (String × String)} :
    ∀ (ps : List (String × String)) (st st' : OutState),
      outputsFold conn tile pfx spm st ps = .ok st' →
      (∀ x, x ∈ st.unrouted_sinks → x ∉ st.unrouted_sources) →
      (∀ q ∈ st.shorted_nets, q.1 ∉ st.unrouted_sources ∧ q.1 ∉ st.unrouted_sinks ∧
        q.2 ∉ st.unrouted_sinks ∧ q.2 ∉ st.unrouted_sources) →
      ((∀ x, x ∈ st'.unrouted_sinks → x ∉ st'.unrouted_sources) ∧
       ∀ q ∈ st'.shorted_nets, q.1 ∉ st'.unrouted_sources ∧ q.1 ∉ st'.unrouted_sinks ∧
         q.2 ∉ st'.unrouted_sinks ∧ q.2 ∉ st'.unrouted_sources)
  | [], st, st', h => by
    cases h
    exact fun hdisj hshort => ⟨hdisj, hshort⟩
  | (src, snk) :: ps, st, st', h => by
    intro hdisj hshort
    rw [outputsFold, outputStep_eq] at h
    rcases hsnklk : dlookup spm snk with _ | sink_tw <;> simp only [hsnklk] at h
    · exact outputsFold_invariant ps _ st' h hdisj hshort
    · rcases hsrclk : dlookup spm src with _ | source_tw <;> simp only [hsrclk] at h
      · cases h
      · by_cases hsnk : conn tile sink_tw ∈ st.unrouted_sinks
        · simp only [if_pos hsnk] at h
          by_cases hsrc : conn tile source_tw ∈ st.unrouted_sources
          · simp only [if_pos hsrc] at h
            refine outputsFold_invariant ps _ st' h ?_ ?_
            · intro x hx
              rw [mem_removeAll] at hx ⊢
              intro hx2
              exact absurd hx2.1 (hdisj x hx.1)
            · intro q hq
              rcases mem_upsert hq with rfl | hq'
              · simp only
                refine ⟨?_, ?_, ?_, ?_⟩
                · rw [mem_removeAll]
                  rintro ⟨-, hne⟩
                  exact hne rfl
                · rw [mem_removeAll]
                  rintro ⟨hk1, -⟩
                  exact hdisj _ hk1 hsrc
                · rw [mem_removeAll]
                  rintro ⟨-, hne⟩
                  exact hne rfl
                · rw [mem_removeAll]
                  rintro ⟨hk2, -⟩
                  exact hdisj _ hsnk hk2
              · rcases hshort q hq' with ⟨a1, a2, a3, a4⟩
                refine ⟨?_, ?_, ?_, ?_⟩
                · rw [mem_removeAll]
                  rintro ⟨hx, -⟩
                  exact a1 hx
                · rw [mem_removeAll]
                  rintro ⟨hx, -⟩
                  exact a2 hx
                · rw [mem_removeAll]
                  rintro ⟨hx, -⟩
                  exact a3 hx
                · rw [mem_removeAll]
                  rintro ⟨hx, -⟩
                  exact a4 hx
          · simp only [if_neg hsrc] at h
            cases h
        · simp only [if_neg hsnk] at h
          exact outputsFold_invariant ps _ st' h hdisj hshort

/-- C1 (confirmed).  First conjunct (the outputs-loop step of
Site.integrate_site): an output pair (source wire, mirrored wire) is
classified as a shorted net exactly when the mirrored wire is a registered
site pin (present in the site-pin map) whose resolved wire identity is
currently in the unrouted-sink set: classification records
source-identity -> sink-identity in the shorted-net map and removes the
source identity from the unrouted-source pool and the sink identity from the
unrouted-sink pool, while a non-classified pair leaves all three untouched.
Second conjunct (whole integration): whenever the resolved sink and source
identities of the site do not collide (WireIndex is injective, spec section 6),
no identity recorded in the returned shorted-net map appears in either
returned unrouted pool. -/
theorem C1_shorted_net_classification :
    (∀ (conn : String → String → Nat) (tile pfx : String)
        (spm : List (String × String)) (st : OutState) (src snk : String)
        (st' : OutState),
      outputStep conn tile pfx spm st (src, snk) = .ok st' →
      (((∃ tw, dlookup spm snk = some tw ∧ conn tile tw ∈ st.unrouted_sinks) →
         ∃ tw tw', dlookup spm snk = some tw ∧ dlookup spm src = some tw' ∧
           conn tile tw' ∈ st.unrouted_sources ∧
           st'.shorted_nets = upsert st.shorted_nets (conn tile tw') (conn tile tw) ∧
           st'.unrouted_sources = removeAll st.unrouted_sources (conn tile tw') ∧
           st'.unrouted_sinks = removeAll st.unrouted_sinks (conn tile tw)) ∧
       ((¬ ∃ tw, dlookup spm snk = some tw ∧ conn tile tw ∈ st.unrouted_sinks) →
         st'.shorted_nets = st.shorted_nets ∧
         st'.unrouted_sinks = st.unrouted_sinks ∧
         st'.unrouted_sources = st.unrouted_sources))) ∧
    (∀ (conn : String → String → Nat) (s : Site) (m : Module) (s' : Site)
        (r : IntegratedSite),
      integrate_site conn s m = .ok (s', r) →
      (∀ w1 ∈ s.sinks.map Prod.fst, ∀ w2 ∈ s.sources.map Prod.fst,
        ∀ tw1 tw2, dlookup (make_site_pin_map s.site.site_pins) w1 = some tw1 →
          dlookup (make_site_pin_map s.site.site_pins) w2 = some tw2 →
          conn s.tile tw1 ≠ conn s.tile tw2) →
      ∀ q ∈ r.shorted_nets, q.1 ∉ r.unrouted_sources ∧ q.1 ∉ r.unrouted_sinks ∧
        q.2 ∉ r.unrouted_sinks ∧ q.2 ∉ r.unrouted_sources) := by
  constructor
  · intro conn tile pfx spm st src snk st' h
    rw [outputStep_eq] at h
    constructor
    · rintro ⟨tw, hlk, hmem⟩
      simp only [hlk] at h
      rcases hsrclk : dlookup spm src with _ | tw' <;> simp only [hsrclk] at h
      · cases h
      · simp only [if_pos hmem] at h
        by_cases hsrc : conn tile tw' ∈ st.unrouted_sources
        · simp only [if_pos hsrc] at h
          cases h
          exact ⟨tw, tw', hlk, rfl, hsrc, rfl, rfl, rfl⟩
        · simp only [if_neg hsrc] at h
          cases h
    · intro hnot
      rcases hsnklk : dlookup spm snk with _ | tw <;> simp only [hsnklk] at h
      · cases h
        exact ⟨rfl, rfl, rfl⟩
      · rcases hsrclk : dlookup spm src with _ | tw' <;> simp only [hsrclk] at h
        · cases h
        · by_cases hmem : conn tile tw ∈ st.unrouted_sinks
          · exact absurd ⟨tw, hsnklk, hmem⟩ hnot
          · simp only [if_neg hmem] at h
            cases h
            exact ⟨rfl, rfl, rfl⟩
  · intro conn s m s' r h hinj
    simp only [integrate_site, bind, Except.bind] at h
    rcases hcs : check_site s with e | u <;> simp only [hcs] at h
    · cases h
    · rcases hco : connectionsOk s m (s.bels.map fun b =>
          (b.set_pfx (s.tile ++ "_" ++ s.site.name)).set_site s.site.name)
        with e | u2 <;> simp only [hco] at h
      · cases h
      · rcases hsf : sinkFold conn s.tile (s.tile ++ "_" ++ s.site.name)
            (make_site_pin_map s.site.site_pins) m
            { wires := (s.internal_sources.map Prod.fst).foldl
                (fun acc w => insertSet acc (s.tile ++ "_" ++ s.site.name ++ "_" ++ w)) [],
              unrouted_sinks := [], unrouted_sources := [], wire_pkey_to_wire := [],
              source_bels := [], site_wire_to_wire_pkey := s.site_wire_to_wire_pkey }
            (s.sinks.map Prod.fst) with e | st1 <;> simp only [hsf] at h
        · cases h
        · rcases hso : sourceFold conn s.tile (s.tile ++ "_" ++ s.site.name)
              (make_site_pin_map s.site.site_pins) m st1 s.sources with e | st2 <;>
            simp only [hso] at h
          · cases h
          · rcases hof : outputsFold conn s.tile (s.tile ++ "_" ++ s.site.name)
                (make_site_pin_map s.site.site_pins)
                { wires := st2.wires, wire_assigns := [],
                  unrouted_sinks := st2.unrouted_sinks,
                  unrouted_sources := st2.unrouted_sources, shorted_nets := [] }
                s.outputs with e | ost <;> simp only [hof] at h
            · cases h
            · cases h
              have hsinks1 := sinkFold_sinks_mem (s.sinks.map Prod.fst) _ st1 hsf
              have hsrc2 := sourceFold_sources_mem s.sources st1 st2 hso
              have hdisj : ∀ x, x ∈ st2.unrouted_sinks → x ∉ st2.unrouted_sources := by
                intro x hx hx2
                rw [hsrc2.2] at hx
                rw [(hsrc2.1 x)] at hx2
                rw [(hsinks1.1 x)] at hx
                rcases hx with hx | ⟨w1, hw1, tw1, hlk1, rfl⟩
                · cases hx
                · rcases hx2 with hx2 | ⟨p2, hp2, tw2, hlk2, heq⟩
                  · rw [hsinks1.2] at hx2
                    cases hx2
                  · have hw1' : w1 ∈ s.sinks.map Prod.fst := hw1
                    have hp2' : p2.1 ∈ s.sources.map Prod.fst :=
                      List.mem_map.mpr ⟨p2, hp2, rfl⟩
                    exact hinj w1 hw1' p2.1 hp2' tw1 tw2 hlk1 hlk2 heq.symm
              have hinv := outputsFold_invariant s.outputs _ ost hof hdisj
                (by
                  intro q hq
                  cases hq)
              exact hinv.2

/-- C1 witness: on the concrete site `c1Site` the classification fires: the
shorted pair (6, 5) is recorded and neither identity remains in any returned
unrouted pool. -/
theorem C1_shorted_net_classification_witness :
    (6, 5) ∈ c1Integrated.shorted_nets ∧
    (6 ∉ c1Integrated.unrouted_sources ∧ 6 ∉ c1Integrated.unrouted_sinks ∧
     5 ∉ c1Integrated.unrouted_sinks ∧ 5 ∉ c1Integrated.unrouted_sources) := by
  have hinj : ∀ w1 ∈ c1Site.sinks.map Prod.fst, ∀ w2 ∈ c1Site.sources.map Prod.fst,
      ∀ tw1 tw2, dlookup (make_site_pin_map c1Site.site.site_pins) w1 = some tw1 →
        dlookup (make_site_pin_map c1Site.site.site_pins) w2 = some tw2 →
        c1Conn c1Site.tile tw1 ≠ c1Conn c1Site.tile tw2 := by
    intro w1 hw1 w2 hw2 tw1 tw2 hlk1 hlk2
    have e1 : c1Site.sinks.map Prod.fst = ["I"] := rfl
    rw [e1, List.mem_singleton] at hw1
    subst hw1
    have e2 : c1Site.sources.map Prod.fst = ["O"] := rfl
    rw [e2, List.mem_singleton] at hw2
    subst hw2
    have e3 : dlookup (make_site_pin_map c1Site.site.site_pins) "I" = some "TI" := rfl
    rw [e3] at hlk1
    cases hlk1
    have e4 : dlookup (make_site_pin_map c1Site.site.site_pins) "O" = some "TO" := rfl
    rw [e4] at hlk2
    cases hlk2
    decide
  have happ := C1_shorted_net_classification.2 c1Conn c1Site {} c1SiteAfter
    c1Integrated rfl hinj
  exact ⟨by decide, happ (6, 5) (by decide)⟩

theorem foldl_max_init_le {xs : List Int} : ∀ {b : Int}, b ≤ xs.foldl max b := by
  induction xs with
  | nil => intro b; exact le_refl b
  | cons c xs ih =>
    intro b
    rw [List.foldl_cons]
    exact le_trans (le_max_left b c) ih

theorem le_foldl_max {xs : List Int} : ∀ {b x : Int}, x ∈ xs → x ≤ xs.foldl max b := by
  induction xs with
  | nil =>
    intro b x hx
    cases hx
  | cons c xs ih =>
    intro b x hx
    rw [List.foldl_cons]
    rcases List.mem_cons.mp hx with rfl | hx'
    · exact le_trans (le_max_right b x) foldl_max_init_le
    · exact ih hx'

theorem foldl_max_mem {xs : List Int} : ∀ {b : Int}, xs.foldl max b = b ∨ xs.foldl max b ∈ xs := by
  induction xs with
  | nil => intro b; exact Or.inl rfl
  | cons c xs ih =>
    intro b
    rw [List.foldl_cons]
    rcases @ih (max b c) with h | h
    · rcases max_choice b c with hm | hm
      · exact Or.inl (h.trans hm)
      · refine Or.inr ?_
        rw [h.trans hm]
        exact List.mem_cons_self _ _
    · exact Or.inr (List.mem_cons_of_mem _ h)

theorem listMax_mem {vs : List Int} (h : vs ≠ []) : listMax vs ∈ vs := by
  cases vs with
  | nil => exact absurd rfl h
  | cons x xs =>
    rw [listMax]
    rcases @foldl_max_mem xs x with h | h
    · rw [h]
      exact List.mem_cons_self _ _
    · exact List.mem_cons_of_mem _ h

theorem le_listMax {vs : List Int} {x : Int} (hx : x ∈ vs) : x ≤ listMax vs := by
  cases vs with
  | nil => cases hx
  | cons c xs =>
    rw [listMax]
    rcases List.mem_cons.mp hx with rfl | hx'
    · exact foldl_max_init_le
    · exact le_foldl_max hx'

theorem foldl_min_init_le {xs : List Int} : ∀ {b : Int}, xs.foldl min b ≤ b := by
  induction xs with
  | nil => intro b; exact le_refl b
  | cons c xs ih =>
    intro b
    rw [List.foldl_cons]
    exact le_trans ih (min_le_left b c)

theorem foldl_min_le {xs : List Int} : ∀ {b x : Int}, x ∈ xs → xs.foldl min b ≤ x := by
  induction xs with
  | nil =>
    intro b x hx
    cases hx
  | cons c xs ih =>
    intro b x hx
    rw [List.foldl_cons]
    rcases List.mem_cons.mp hx with rfl | hx'
    · exact le_trans foldl_min_init_le (min_le_right b x)
    · exact ih hx'

theorem foldl_min_mem {xs : List Int} : ∀ {b : Int}, xs.foldl min b = b ∨ xs.foldl min b ∈ xs := by
  induction xs with
  | nil => intro b; exact Or.inl rfl
  | cons c xs ih =>
    intro b
    rw [List.foldl_cons]
    rcases @ih (min b c) with h | h
    · rcases min_choice b c with hm | hm
      · exact Or.inl (h.trans hm)
      · refine Or.inr ?_
        rw [h.trans hm]
        exact List.mem_cons_self _ _
    · exact Or.inr (List.mem_cons_of_mem _ h)

theorem listMin_mem {vs : List Int} (h : vs ≠ []) : listMin vs ∈ vs := by
  cases vs with
  | nil => exact absurd rfl h
  | cons x xs =>
    rw [listMin]
    rcases @foldl_min_mem xs x with h | h
    · rw [h]
      exact List.mem_cons_self _ _
    · exact List.mem_cons_of_mem _ h

theorem listMin_le {vs : List Int} {x : Int} (hx : x ∈ vs) : listMin vs ≤ x := by
  cases vs with
  | nil => cases hx
  | cons c xs =>
    rw [listMin]
    rcases List.mem_cons.mp hx with rfl | hx'
    · exact foldl_min_init_le
    · exact foldl_min_le hx'

theorem length_eq_dedup_length_iff {vs : List Int} :
    vs.length = vs.dedup.length ↔ vs.Nodup := by
  constructor
  · intro h
    have hsub : vs.dedup.Sublist vs := List.dedup_sublist vs
    have : vs.dedup = vs := hsub.eq_of_length h.symm
    rw [← this]
    exact List.nodup_dedup vs
  · intro h
    rw [List.dedup_eq_self.mpr h]

theorem bus_values_perm_iff {vs : List Int} (hne : vs ≠ []) :
    (listMin vs = 0 ∧ listMax vs = (vs.length : Int) - 1 ∧ vs.Nodup) ↔
    (vs.Nodup ∧ ∀ i : Int, i ∈ vs ↔ 0 ≤ i ∧ i < (vs.length : Int)) := by
  have hlen : 0 < vs.length := List.length_pos.mpr hne
  constructor
  · rintro ⟨hmin, hmax, hnd⟩
    refine ⟨hnd, ?_⟩
    have hsub : vs.toFinset ⊆ Finset.Icc 0 ((vs.length : Int) - 1) := by
      intro i hi
      rw [List.mem_toFinset] at hi
      rw [Finset.mem_Icc]
      exact ⟨hmin ▸ listMin_le hi, hmax ▸ le_listMax hi⟩
    have hcard : (Finset.Icc (0 : Int) ((vs.length : Int) - 1)).card = vs.length := by
      rw [Int.card_Icc]
      simp
    have heq : vs.toFinset = Finset.Icc 0 ((vs.length : Int) - 1) := by
      apply Finset.eq_of_subset_of_card_le hsub
      rw [hcard, List.toFinset_card_of_nodup hnd]
    intro i
    constructor
    · intro hi
      have : i ∈ vs.toFinset := List.mem_toFinset.mpr hi
      rw [heq, Finset.mem_Icc] at this
      exact ⟨this.1, by omega⟩
    · intro ⟨h0, hl⟩
      have : i ∈ Finset.Icc (0 : Int) ((vs.length : Int) - 1) := by
        rw [Finset.mem_Icc]
        exact ⟨h0, by omega⟩
      rw [← heq, List.mem_toFinset] at this
      exact this
  · rintro ⟨hnd, hiff⟩
    have h0mem : (0 : Int) ∈ vs := (hiff 0).mpr ⟨le_refl 0, by exact_mod_cast hlen⟩
    have hNmem : ((vs.length : Int) - 1) ∈ vs := (hiff _).mpr ⟨by omega, by omega⟩
    refine ⟨?_, ?_, hnd⟩
    · have h1 : listMin vs ≤ 0 := listMin_le h0mem
      have h2 : 0 ≤ listMin vs := ((hiff _).mp (listMin_mem hne)).1
      omega
    · have h1 : (vs.length : Int) - 1 ≤ listMax vs := le_listMax hNmem
      have h2 : listMax vs < (vs.length : Int) := ((hiff _).mp (listMax_mem hne)).2
      omega

theorem nodup_keys_upsert {α β : Type _} [DecidableEq α] {l : List (α × β)} {k : α}
    {v : β} (h : (l.map Prod.fst).Nodup) : ((upsert l k v).map Prod.fst).Nodup := by
  rw [keys_upsert]
  split
  · exact h
  · rename_i hk
    rw [List.nodup_append]
    exact ⟨h, List.nodup_singleton k, fun x hx hx2 => hk ((List.mem_singleton.mp hx2) ▸ hx)⟩

theorem busCollectStep_inv {acc acc' : List (String × Option Int) × List (String × List Int)}
    {w : String} (h : busCollectStep acc w = .ok acc')
    (h1 : (acc.1.map Prod.fst).Nodup) (h2 : (acc.2.map Prod.fst).Nodup)
    (h3 : ∀ q ∈ acc.2, q.2 ≠ []) :
    (acc'.1.map Prod.fst).Nodup ∧ (acc'.2.map Prod.fst).Nodup ∧ ∀ q ∈ acc'.2, q.2 ≠ [] := by
  rw [busCollectStep] at h
  split at h
  · split at h
    · rcases hn : pyToInt? (((w.toList.drop (w.toList.indexOf '[' + 1)).dropLast).asString)
        with _ | n <;> simp only [hn] at h
      · cases h
      · rcases hlk : dlookup acc.2 ((w.toList.take (w.toList.indexOf '[')).asString)
          with _ | vs <;> simp only [hlk] at h
        · cases h
          refine ⟨h1, ?_, ?_⟩
          · rw [List.map_append]
            rw [List.nodup_append]
            refine ⟨h2, List.nodup_singleton _, ?_⟩
            intro x hx hx2
            rw [List.map_singleton, List.mem_singleton] at hx2
            subst hx2
            exact absurd hx (by rw [← dlookup_eq_none_iff]; exact hlk)
          · intro q hq
            rcases List.mem_append.mp hq with hq' | hq'
            · exact h3 q hq'
            · rw [List.mem_singleton] at hq'
              subst hq'
              simp
        · cases h
          refine ⟨h1, nodup_keys_upsert h2, ?_⟩
          intro q hq
          rcases mem_upsert hq with rfl | hq'
          · simp
          · exact h3 q hq'
    · cases h
  · cases h
    exact ⟨nodup_keys_upsert h1, h2, h3⟩

theorem busCollect_inv :
    ∀ (wires : List String) (acc : List (String × Option Int) × List (String × List Int))
      (o : List (String × Option Int)) (bs : List (String × List Int)),
      busCollect wires acc = .ok (o, bs) →
      (acc.1.map Prod.fst).Nodup → (acc.2.map Prod.fst).Nodup →
      (∀ q ∈ acc.2, q.2 ≠ []) →
      ((o.map Prod.fst).Nodup ∧ (bs.map Prod.fst).Nodup ∧ ∀ q ∈ bs, q.2 ≠ [])
  | [], acc, o, bs, h => by
    cases h
    exact fun h1 h2 h3 => ⟨h1, h2, h3⟩
  | w :: ws, acc, o, bs, h => by
    intro h1 h2 h3
    rw [busCollect] at h
    rcases hstep : busCollectStep acc w with e | acc' <;> simp only [hstep] at h
    · cases h
    · rcases busCollectStep_inv hstep h1 h2 h3 with ⟨h1', h2', h3'⟩
      exact busCollect_inv ws acc' o bs h h1' h2' h3'

theorem busFinish_asserts :
    ∀ (bs : List (String × List Int)) (o out : List (String × Option Int)),
      busFinish o bs = .ok out →
      ∀ q ∈ bs, listMin q.2 = 0 ∧ listMax q.2 = (q.2.length : Int) - 1 ∧
        q.2.length = q.2.dedup.length
  | [], _, _, _ => by
    intro q hq
    cases hq
  | (bus, values) :: rest, o, out, h => by
    intro q hq
    simp only [busFinish, bind, Except.bind, pyAssert, decide_eq_true_eq] at h
    split_ifs at h with h1 h2 h3
    · rcases List.mem_cons.mp hq with rfl | hq'
      · exact ⟨h1, h2, h3⟩
      · exact busFinish_asserts rest _ out h q hq'

theorem busFinish_lookup :
    ∀ (bs : List (String × List Int)) (o out : List (String × Option Int)),
      busFinish o bs = .ok out → (bs.map Prod.fst).Nodup →
      ((∀ q ∈ bs, dlookup out q.1 = some (some (listMax q.2))) ∧
       (∀ u, u ∉ bs.map Prod.fst → dlookup out u = dlookup o u))
  | [], o, out, h, _ => by
    cases h
    exact ⟨fun q hq => absurd hq (List.not_mem_nil q), fun u _ => rfl⟩
  | (bus, values) :: rest, o, out, h, hnd => by
    simp only [busFinish, bind, Except.bind, pyAssert, decide_eq_true_eq] at h
    split_ifs at h with h1 h2 h3
    · have hnd' : (rest.map Prod.fst).Nodup := by
        rw [List.map_cons, List.nodup_cons] at hnd
        exact hnd.2
      have hbusnot : bus ∉ rest.map Prod.fst := by
        rw [List.map_cons, List.nodup_cons] at hnd
        exact hnd.1
      rcases busFinish_lookup rest _ out h hnd' with ⟨hin, hout⟩
      refine ⟨?_, ?_⟩
      · intro q hq
        rcases List.mem_cons.mp hq with rfl | hq'
        · rw [hout _ hbusnot]
          exact dlookup_upsert_self
        · exact hin q hq'
      · intro u hu
        rw [List.map_cons, List.mem_cons] at hu
        push_neg at hu
        rw [hout u hu.2]
        exact dlookup_upsert_ne (fun he => hu.1 he.symm)

theorem make_bus_ok_extract {wires : List String} {o : List (String × Option Int)}
    {bs : List (String × List Int)} {l : List (String × Option Int)}
    (hc : busCollect wires ([], []) = .ok (o, bs))
    (h : make_bus wires = .ok l) :
    ∃ out, busFinish o bs = .ok out ∧ l = sortLe (fun a b => strLe a.1 b.1) out := by
  simp only [make_bus, hc, bind, Except.bind] at h
  rcases hf : busFinish o bs with e | out <;> simp only [hf] at h
  · cases h
  · refine ⟨out, rfl, ?_⟩
    simp only [pure, Except.pure] at h
    cases h
    rfl

theorem lexLe_total : ∀ (a b : List Char), lexLe a b = true ∨ lexLe b a = true
  | [], _ => Or.inl rfl
  | _ :: _, [] => Or.inr rfl
  | a :: as, b :: bs => by
    rcases Nat.lt_trichotomy a.toNat b.toNat with h | h | h
    · left
      rw [lexLe, if_pos h]
    · rcases lexLe_total as bs with ih | ih
      · left
        rw [lexLe, if_neg (by omega), if_pos h]
        exact ih
      · right
        rw [lexLe, if_neg (by omega), if_pos h.symm]
        exact ih
    · right
      rw [lexLe, if_pos h]

theorem lexLe_trans :
    ∀ (a b c : List Char), lexLe a b = true → lexLe b c = true → lexLe a c = true
  | [], _, _, _, _ => rfl
  | _ :: _, [], _, h, _ => by cases h
  | _ :: _, _ :: _, [], _, h2 => by cases h2
  | a :: as, b :: bs, c :: cs, h1, h2 => by
    rw [lexLe] at h1 h2 ⊢
    by_cases hab : a.toNat < b.toNat
    · by_cases hbc : b.toNat < c.toNat
      · rw [if_pos (show a.toNat < c.toNat by omega)]
      · rw [if_neg hbc] at h2
        by_cases hbc2 : b.toNat = c.toNat
        · rw [if_pos (show a.toNat < c.toNat by omega)]
        · rw [if_neg hbc2] at h2
          cases h2
    · rw [if_neg hab] at h1
      by_cases hab2 : a.toNat = b.toNat
      · rw [if_pos hab2] at h1
        by_cases hbc : b.toNat < c.toNat
        · rw [if_pos (show a.toNat < c.toNat by omega)]
        · rw [if_neg hbc] at h2
          by_cases hbc2 : b.toNat = c.toNat
          · rw [if_pos hbc2] at h2
            rw [if_neg (show ¬ a.toNat < c.toNat by omega),
              if_pos (show a.toNat = c.toNat by omega)]
            exact lexLe_trans as bs cs h1 h2
          · rw [if_neg hbc2] at h2
            cases h2
      · rw [if_neg hab2] at h1
        cases h1

/-- C6 (corrected).  make_bus on a collection whose parse gives unindexed
entries `o` and bus families `bs`: on success every family's index list is
exactly 0..k-1 each once and the family is reported with declared bound k-1;
every unindexed name THAT IS NOT ALSO A FAMILY NAME maps to None (a name that
is both indexed and unindexed gets its None entry overwritten — see the
counterexample); results are ordered by sorted name; and any family whose
index list has a gap, duplicate, or non-zero minimum makes make_bus raise. -/
theorem C6_make_bus (wires : List String) (o : List (String × Option Int))
    (bs : List (String × List Int))
    (hc : busCollect wires ([], []) = .ok (o, bs)) :
    ((∀ bn vs, (bn, vs) ∈ bs → ∀ l, make_bus wires = .ok l →
        vs.Nodup ∧ (∀ i : Int, i ∈ vs ↔ 0 ≤ i ∧ i < (vs.length : Int)) ∧
        (bn, some ((vs.length : Int) - 1)) ∈ l) ∧
     (∀ u, (u, (none : Option Int)) ∈ o → u ∉ bs.map Prod.fst →
        ∀ l, make_bus wires = .ok l → (u, none) ∈ l) ∧
     (∀ l, make_bus wires = .ok l →
        l.Pairwise (fun a b => strLe a.1 b.1 = true)) ∧
     (∀ bn vs, (bn, vs) ∈ bs →
        ¬ (vs.Nodup ∧ ∀ i : Int, i ∈ vs ↔ 0 ≤ i ∧ i < (vs.length : Int)) →
        ∃ e, make_bus wires = .error e)) := by
  obtain ⟨hoNd, hbsNd, hbsNe⟩ :=
    busCollect_inv wires ([], []) o bs hc (by simp) (by simp) (by simp)
  refine ⟨?_, ?_, ?_, ?_⟩
  · intro bn vs hmem l hml
    rcases make_bus_ok_extract hc hml with ⟨out, hfin, rfl⟩
    have hass := busFinish_asserts bs o out hfin (bn, vs) hmem
    have hne : vs ≠ [] := hbsNe (bn, vs) hmem
    have hperm := (bus_values_perm_iff hne).mp
      ⟨hass.1, hass.2.1, length_eq_dedup_length_iff.mp hass.2.2⟩
    refine ⟨hperm.1, hperm.2, ?_⟩
    have hlk := (busFinish_lookup bs o out hfin hbsNd).1 (bn, vs) hmem
    rw [hass.2.1] at hlk
    exact mem_sortLe.mpr (dlookup_mem hlk)
  · intro u hu hnotbus l hml
    rcases make_bus_ok_extract hc hml with ⟨out, hfin, rfl⟩
    have hlk := (busFinish_lookup bs o out hfin hbsNd).2 u hnotbus
    have ho : dlookup o u = some none := mem_dlookup hoNd hu
    rw [ho] at hlk
    exact mem_sortLe.mpr (dlookup_mem hlk)
  · intro l hml
    rcases make_bus_ok_extract hc hml with ⟨out, hfin, rfl⟩
    exact sorted_sortLe (fun a b => lexLe_total a.1.toList b.1.toList)
      (fun a b c hab hbc => lexLe_trans a.1.toList b.1.toList c.1.toList hab hbc) out
  · intro bn vs hmem hbad
    rcases hres : make_bus wires with e | l
    · exact ⟨e, rfl⟩
    · exfalso
      rcases make_bus_ok_extract hc hres with ⟨out, hfin, -⟩
      have hass := busFinish_asserts bs o out hfin (bn, vs) hmem
      have hne : vs ≠ [] := hbsNe (bn, vs) hmem
      exact hbad ((bus_values_perm_iff hne).mp
        ⟨hass.1, hass.2.1, length_eq_dedup_length_iff.mp hass.2.2⟩)

/-- C6 witness: wires A[0], A[1], B give family A the indices 0..1 each once
and the declared bound 1, with B mapped to None. -/
theorem C6_make_bus_witness :
    (([0, 1] : List Int).Nodup ∧
      (∀ i : Int, i ∈ ([0, 1] : List Int) ↔
        0 ≤ i ∧ i < ((([0, 1] : List Int).length : Int))) ∧
      ("A", some ((([0, 1] : List Int).length : Int) - 1)) ∈
        [("A", some (1 : Int)), ("B", (none : Option Int))]) ∧
    ("B", (none : Option Int)) ∈ [("A", some (1 : Int)), ("B", (none : Option Int))] := by
  have h := C6_make_bus ["A[0]", "A[1]", "B"] [("B", none)] [("A", [0, 1])] rfl
  refine ⟨h.1 "A" [0, 1] (by decide) [("A", some 1), ("B", none)] rfl, ?_⟩
  exact h.2.1 "B" (by decide) (by decide) [("A", some 1), ("B", none)] rfl

/-- C6 counterexample: in the collection ["A", "A[0]"] the name "A" appears
both unindexed and as an indexed family; make_bus succeeds with A mapped to
the bus bound 0, so "None for every unindexed name" fails as stated. -/
theorem C6_counterexample :
    make_bus ["A", "A[0]"] = .ok [("A", some 0)] ∧
    ("A", (none : Option Int)) ∉ [(("A" : String), some (0 : Int))] :=
  ⟨rfl, by decide⟩

theorem dlookup_append_some {α β : Type _} [DecidableEq α] {l l' : List (α × β)}
    {k : α} {v : β} (h : dlookup l k = some v) : dlookup (l ++ l') k = some v := by
  induction l with
  | nil => cases h
  | cons p rest ih =>
    rw [dlookup] at h
    rw [List.cons_append, dlookup]
    split at h
    · rename_i hp
      rw [if_pos hp]
      exact h
    · rename_i hp
      rw [if_neg hp]
      exact ih h

theorem dlookup_append_none {α β : Type _} [DecidableEq α] {l l' : List (α × β)}
    {k : α} (h : dlookup l k = none) : dlookup (l ++ l') k = dlookup l' k := by
  induction l with
  | nil => rfl
  | cons p rest ih =>
    rw [dlookup] at h
    rw [List.cons_append, dlookup]
    split at h
    · cases h
    · rename_i hp
      rw [if_neg hp]
      exact ih h

theorem ovCollectStep_flag_persist {top : Module} {b : Bel} {ind : String}
    {acc acc' : BusAcc} {wire : String} {c : ConnValue} {bn : String}
    {fe : Bool × List (Int × Option String)}
    (h : ovCollectStep top b ind acc (wire, c) = .ok acc')
    (hf : dlookup acc.buses bn = some fe) :
    ∃ es, dlookup acc'.buses bn = some (fe.1, es) := by
  rw [ovCollectStep] at h
  split at h
  · cases h
    exact ⟨fe.2, hf⟩
  · rename_i bus_name address heq
    split at h
    · rcases hlk : dlookup acc.buses bus_name with _ | fe' <;> simp only [hlk] at h
      · rcases hn : pyToInt? (address.toList.dropLast.asString) with _ | idx <;>
          simp only [hn] at h
        · cases h
        · cases h
          exact ⟨fe.2, dlookup_append_some hf⟩
      · split at h
        · rcases hn : pyToInt? (address.toList.dropLast.asString) with _ | idx <;>
            simp only [hn] at h
          · cases h
          · cases h
            by_cases hbn : bus_name = bn
            · subst hbn
              rw [hlk] at hf
              cases hf
              exact ⟨upsert fe.2 idx (renderConnWire top b c), by
                simp only
                exact dlookup_upsert_self⟩
            · exact ⟨fe.2, by
                simp only
                rw [dlookup_upsert_ne hbn]
                exact hf⟩
        · cases h
    · cases h
  · cases h

theorem ovCollect_flag_persist {top : Module} {b : Bel} {ind : String} :
    ∀ (l : List (String × ConnValue)) (acc acc' : BusAcc)
      (bn : String) (fe : Bool × List (Int × Option String)),
      ovCollect top b ind l acc = .ok acc' →
      dlookup acc.buses bn = some fe →
      ∃ es, dlookup acc'.buses bn = some (fe.1, es)
  | [], acc, acc', bn, fe, h, hf => by
    cases h
    exact ⟨fe.2, hf⟩
  | q :: rest, acc, acc', bn, fe, h, hf => by
    rw [ovCollect] at h
    rcases hstep : ovCollectStep top b ind acc q with e | acc₁ <;> simp only [hstep] at h
    · cases h
    · rcases q with ⟨wire, c⟩
      rcases ovCollectStep_flag_persist hstep hf with ⟨es₁, hf₁⟩
      exact ovCollect_flag_persist rest acc₁ acc' bn (fe.1, es₁) h hf₁

theorem ovCollect_flag_of_mem {top : Module} {b : Bel} {ind : String} :
    ∀ (l : List (String × ConnValue)) (acc acc' : BusAcc),
      ovCollect top b ind l acc = .ok acc' →
      ∀ (wire : String) (c : ConnValue) (bn : String) (idx : Int),
        (wire, c) ∈ l → busPinParse wire = some (bn, idx) →
        ∃ es, dlookup acc'.buses bn = some (b.outputs.contains wire, es)
  | [], _, _, _ => by
    intro _ _ _ _ hin _
    cases hin
  | q :: rest, acc, acc', h => by
    intro wire c bn idx hin hp
    rw [ovCollect] at h
    rcases hstep : ovCollectStep top b ind acc q with e | acc₁ <;> simp only [hstep] at h
    · cases h
    · rcases List.mem_cons.mp hin with heq | hin'
      · subst heq
        have hstep₁ : ∃ es, dlookup acc₁.buses bn = some (b.outputs.contains wire, es) := by
          rw [busPinParse] at hp
          rw [ovCollectStep] at hstep
          split at hstep
          · rename_i x hsp
            simp only [hsp] at hp
            cases hp
          · rename_i bus_name address hsp
            simp only [hsp] at hp
            split at hstep
            · rename_i hlast
              rw [if_pos hlast] at hp
              rcases hn : pyToInt? (address.toList.dropLast.asString) with _ | n
              · rw [hn] at hp
                cases hp
              · rw [hn] at hp
                cases hp
                rcases hlk : dlookup acc.buses bn with _ | fe'
                · simp only [hlk, hn] at hstep
                  cases hstep
                  refine ⟨[(idx, renderConnWire top b c)], ?_⟩
                  simp only
                  rw [dlookup_append_none hlk, dlookup]
                  simp
                · simp only [hlk] at hstep
                  split at hstep
                  · rename_i hflag
                    simp only [hn] at hstep
                    cases hstep
                    refine ⟨upsert fe'.2 idx (renderConnWire top b c), ?_⟩
                    simp only
                    rw [← hflag]
                    exact dlookup_upsert_self
                  · cases hstep
            · rename_i hlast
              rw [if_neg hlast] at hp
              cases hp
          · rename_i hsp
            simp only [hsp] at hp
            cases hp
        rcases hstep₁ with ⟨es, hf₁⟩
        exact ovCollect_flag_persist rest acc₁ acc' bn (b.outputs.contains wire, es) h hf₁
      · exact ovCollect_flag_of_mem rest acc₁ acc' h wire c bn idx hin' hp

theorem ovRenderBuses_mem {b : Bel} {ind : String} :
    ∀ (buses : List (String × Bool × List (Int × Option String)))
      (conns : List (String × String)) (q : String × Bool × List (Int × Option String)),
      q ∈ buses →
      ((ind ++ "wire [" ++ toString (listMax (q.2.2.map Prod.fst)) ++ ":0] " ++
        b.apply_pfx q.1 ++ ";") ∈ (ovRenderBuses b ind buses conns).2 ∧
       ∀ idx w, (idx, some w) ∈ q.2.2 →
         (if q.2.1 then
            ind ++ "assign " ++ w ++ " = " ++ b.apply_pfx q.1 ++ "[" ++
              toString idx ++ "];"
          else
            ind ++ "assign " ++ b.apply_pfx q.1 ++ "[" ++ toString idx ++ "] = " ++
              w ++ ";") ∈ (ovRenderBuses b ind buses conns).2)
  | [], _, q, hq => absurd hq (List.not_mem_nil q)
  | (bus_name, flag, entries) :: rest, conns, q, hq => by
    rcases List.mem_cons.mp hq with rfl | hq'
    · rw [ovRenderBuses]
      constructor
      · exact List.mem_cons_self _ _
      · intro idx w hiw
        refine List.mem_cons_of_mem _ (List.mem_append.mpr (Or.inl ?_))
        apply List.mem_filterMap.mpr
        refine ⟨(idx, some w), hiw, ?_⟩
        cases flag <;> simp
    · rw [ovRenderBuses]
      have ih := @ovRenderBuses_mem b ind rest
        (upsert conns bus_name
          (ind ++ ind ++ "." ++ bus_name ++ "(" ++ b.apply_pfx bus_name ++ ")")) q hq'
      exact ⟨List.mem_cons_of_mem _ (List.mem_append.mpr (Or.inr ih.1)),
        fun idx w hiw =>
          List.mem_cons_of_mem _ (List.mem_append.mpr (Or.inr (ih.2 idx w hiw)))⟩

theorem output_verilog_ok_extract {top : Module} {b : Bel} {ind : String}
    {lines : List String} (h : b.output_verilog top ind = .ok lines) :
    ∃ acc, ovCollect top b ind b.connections ⟨[], []⟩ = .ok acc ∧
      ∀ x ∈ (ovRenderBuses b ind acc.buses acc.conns).2, x ∈ lines := by
  simp only [Bel.output_verilog, bind, Except.bind] at h
  rcases hacc : ovCollect top b ind b.connections ⟨[], []⟩ with e | acc <;>
    simp only [hacc] at h
  · cases h
  · simp only [pure, Except.pure] at h
    cases h
    refine ⟨acc, rfl, ?_⟩
    intro x hx
    simp [List.mem_append, hx]

/-- C7 (confirmed).  First conjunct: two pins of one Bel that parse to the
same `name[index]` bus family but carry different output marks make
Bel.output_verilog fail with the malformed-bus assertion (whatever else the
connection dict holds).  Second conjunct: on success, every collected bus
group contributes one declared bus wire whose bound is the maximum index
(width = max index + 1), and every group entry with a connection contributes
a bit-select assignment whose direction follows the group's output flag
(bus drives the external wire for an output group, external wire drives the
bus for an input group). -/
theorem C7_output_verilog_buses :
    (∀ (top : Module) (b : Bel) (ind : String) (p1 p2 : String)
        (c1 c2 : ConnValue) (bn : String) (i1 i2 : Int),
      (p1, c1) ∈ b.connections → (p2, c2) ∈ b.connections →
      busPinParse p1 = some (bn, i1) → busPinParse p2 = some (bn, i2) →
      b.outputs.contains p1 ≠ b.outputs.contains p2 →
      ∃ e, b.output_verilog top ind = .error e) ∧
    (∀ (top : Module) (b : Bel) (ind : String) (lines : List String) (acc : BusAcc),
      b.output_verilog top ind = .ok lines →
      ovCollect top b ind b.connections ⟨[], []⟩ = .ok acc →
      ∀ q ∈ acc.buses,
        ((ind ++ "wire [" ++ toString (listMax (q.2.2.map Prod.fst)) ++ ":0] " ++
          b.apply_pfx q.1 ++ ";") ∈ lines ∧
         ∀ idx w, (idx, some w) ∈ q.2.2 →
           (if q.2.1 then
              ind ++ "assign " ++ w ++ " = " ++ b.apply_pfx q.1 ++ "[" ++
                toString idx ++ "];"
            else
              ind ++ "assign " ++ b.apply_pfx q.1 ++ "[" ++ toString idx ++ "] = " ++
                w ++ ";") ∈ lines)) := by
  constructor
  · intro top b ind p1 p2 c1 c2 bn i1 i2 h1 h2 hp1 hp2 hmark
    rcases hacc : ovCollect top b ind b.connections ⟨[], []⟩ with e | acc
    · refine ⟨e, ?_⟩
      simp only [Bel.output_verilog, bind, Except.bind, hacc]
    · exfalso
      rcases ovCollect_flag_of_mem b.connections ⟨[], []⟩ acc hacc p1 c1 bn i1 h1 hp1
        with ⟨es1, hf1⟩
      rcases ovCollect_flag_of_mem b.connections ⟨[], []⟩ acc hacc p2 c2 bn i2 h2 hp2
        with ⟨es2, hf2⟩
      rw [hf1] at hf2
      exact hmark (congrArg (fun o => (Option.getD o (false, [])).1) hf2)
  · intro top b ind lines acc h hacc
    intro q hq
    rcases output_verilog_ok_extract h with ⟨acc', hacc', hsub⟩
    rw [hacc] at hacc'
    cases hacc'
    have hm := @ovRenderBuses_mem b ind acc.buses acc.conns q hq
    exact ⟨hsub _ hm.1, fun idx w hiw => hsub _ (hm.2 idx w hiw)⟩

/-- C7 witness: on the concrete Bel `c7Bel` (input bus pins ADDR[0]=A0 and
ADDR[1]=A1), the rendered lines declare the two-bit bus P_ADDR and assign
the external wires INTO the bus (input direction). -/
theorem C7_output_verilog_buses_witness :
    ("  wire [" ++ toString (listMax ([(0, some "P_A0"), ((1 : Int), some "P_A1")].map
        Prod.fst)) ++ ":0] " ++ c7Bel.apply_pfx "ADDR" ++ ";") ∈
      (c7Bel.output_verilog {} "  ").toOption.getD [] ∧
    (if false then
       "  " ++ "assign " ++ "P_A0" ++ " = " ++ c7Bel.apply_pfx "ADDR" ++ "[" ++
         toString (0 : Int) ++ "];"
     else
       "  " ++ "assign " ++ c7Bel.apply_pfx "ADDR" ++ "[" ++ toString (0 : Int) ++
         "] = " ++ "P_A0" ++ ";") ∈ (c7Bel.output_verilog {} "  ").toOption.getD [] := by
  have hok : c7Bel.output_verilog {} "  " =
      .ok ((c7Bel.output_verilog {} "  ").toOption.getD []) := rfl
  have hcoll : ovCollect {} c7Bel "  " c7Bel.connections ⟨[], []⟩ =
      .ok ⟨[("EN", "    .EN(P_E)")],
        [("ADDR", false, [(0, some "P_A0"), (1, some "P_A1")]),
         ("UNK", false, [(0, none)])]⟩ := by rfl
  have happ := C7_output_verilog_buses.2 {} c7Bel "  "
    ((c7Bel.output_verilog {} "  ").toOption.getD [])
    ⟨[("EN", "    .EN(P_E)")],
     [("ADDR", false, [(0, some "P_A0"), (1, some "P_A1")]),
      ("UNK", false, [(0, none)])]⟩
    hok hcoll ("ADDR", false, [(0, some "P_A0"), (1, some "P_A1")]) (by decide)
  exact ⟨happ.1, happ.2 0 "P_A0" (by decide)⟩

/-- C9 (confirmed).  Module.output_nets raises before make_routes has run
(the nets attribute is absent) and on an empty nets dict; afterwards each
realized net contributes its lines: the constant rails always yield the fixed
sentinel names `<const0>` / `<const1>` regardless of the module state (in
particular of the rail's synthesized wire name), a net whose key has no
source_bels driver entry is skipped, a dead net is skipped, and a live driven
net yields the pin block of its unique driving (Bel, pin). -/
theorem C9_output_nets :
    (∀ m : Module, m.nets = none →
      output_nets m = .error "AttributeError: Module object has no attribute nets") ∧
    (∀ m : Module, m.nets = some [] → ∃ e, output_nets m = .error e) ∧
    (∀ (m : Module) (l : List (Nat × Net)), m.nets = some l → l ≠ [] →
      output_nets m = .ok ((l.map (netLines m)).flatten)) ∧
    ZERO_NET ≠ ONE_NET ∧
    (∀ (m : Module) (net : Net), netLines m (ZERO_NET, net) =
      ["set net [get_nets \x7b<const0>\x7d]",
       "\nset_property FIXED_ROUTE " ++ pyJoin " " net.fixed_route ++ " $net\n"]) ∧
    (∀ (m : Module) (net : Net), netLines m (ONE_NET, net) =
      ["set net [get_nets \x7b<const1>\x7d]",
       "\nset_property FIXED_ROUTE " ++ pyJoin " " net.fixed_route ++ " $net\n"]) ∧
    (∀ (m : Module) (k : Nat) (net : Net), k ≠ ZERO_NET → k ≠ ONE_NET →
      dlookup m.source_bels k = none → netLines m (k, net) = []) ∧
    (∀ (m : Module) (k : Nat) (net : Net), k ≠ ZERO_NET → k ≠ ONE_NET →
      net.alive = false → netLines m (k, net) = []) ∧
    (∀ (m : Module) (k : Nat) (net : Net) (bel : Bel) (pin : String),
      k ≠ ZERO_NET → k ≠ ONE_NET → dlookup m.source_bels k = some (bel, pin) →
      net.alive = true →
      netLines m (k, net) =
        ["\nset pin [get_pins " ++ bel.get_cell ++ "/" ++ pin ++
          "]\nif \x7b $pin == \x7b\x7d \x7d \x7b\n    error \"Failed to find pin!\"\n\x7d\nset net [get_nets -of_object $pin]\nif \x7b $net == \x7b\x7d \x7d \x7b\n    error \"Failed to find net!\"\n\x7d\n",
         "\nset_property FIXED_ROUTE " ++ pyJoin " " net.fixed_route ++ " $net\n"]) := by
  refine ⟨?_, ?_, ?_, by decide, ?_, ?_, ?_, ?_, ?_⟩
  · intro m hm
    rw [output_nets, hm]
    rfl
  · intro m hm
    refine ⟨"assert len(self.nets) > 0", ?_⟩
    rw [output_nets, hm]
    rfl
  · intro m l hm hl
    rw [output_nets, hm]
    have : l.length > 0 := by
      cases l with
      | nil => exact absurd rfl hl
      | cons a t => simp
    simp only [getEx, bind, Except.bind, pyAssert, decide_eq_true_eq, if_pos this]
    rfl
  · intro m net
    simp [netLines]
  · intro m net
    rw [netLines]
    have : ¬ (ONE_NET = ZERO_NET) := by decide
    rw [if_neg this, if_pos rfl]
  · intro m k net hk0 hk1 hlk
    rw [netLines]
    simp only [if_neg hk0, if_neg hk1, hlk]
  · intro m k net hk0 hk1 hdead
    rw [netLines]
    simp only [if_neg hk0, if_neg hk1]
    rcases dlookup m.source_bels k with _ | bp
    · rfl
    · simp [hdead]
  · intro m k net bel pin hk0 hk1 hlk halive
    rw [netLines]
    simp only [if_neg hk0, if_neg hk1, hlk, halive, if_pos]

/-- C9 witness: the module that never ran make_routes has no nets attribute
and output_nets fails on it. -/
theorem C9_output_nets_witness :
    output_nets ({} : Module) =
      .error "AttributeError: Module object has no attribute nets" :=
  C9_output_nets.1 {} rfl

/-- C4 counterexample: check_site accepts a site whose `sinks` and `sources`
key sets are NOT disjoint, so "sinks, sources, internal_sources key sets are
pairwise disjoint after check_site passes" is false as stated. -/
theorem C4_counterexample :
    check_site c4Site = .ok () ∧
      "W" ∈ c4Site.sinks.map Prod.fst ∧ "W" ∈ c4Site.sources.map Prod.fst := by
  refine ⟨rfl, by decide, by decide⟩

end Fasm2Bels
